import Mathlib

/-!
Verification of the lswpalette repository core: a shallow embedding of
`src/colourutils.py` and the palette/grid/favorites/serialization logic of
`src/lswpalette.py` (class `PaletteApp`), together with theorems settling the
frozen claims about the program.

Python strings are modelled as `List Char` (`PyStr`), Python `int` as `Int`,
and the float arithmetic of `colorsys` as exact rational arithmetic over `Rat`.
A parsed INI file (the result of `configparser.ConfigParser.read_file`) is
modelled as an association list of sections, each an association list of
string keys to string values.
-/

namespace LswPalette

/-- Python `str` modelled as a list of characters. -/
abbrev PyStr := List Char

/-- One INI section: an ordered key/value association list. -/
abbrev IniSec := List (PyStr × PyStr)

/-- A parsed INI document: ordered list of named sections. -/
abbrev IniDoc := List (PyStr × IniSec)

instance {ε α : Type} [DecidableEq ε] [DecidableEq α] : DecidableEq (Except ε α) := fun a b =>
  match a, b with
  | .ok x, .ok y =>
    if h : x = y then .isTrue (by rw [h]) else .isFalse (by simp [h])
  | .error e, .error f =>
    if h : e = f then .isTrue (by rw [h]) else .isFalse (by simp [h])
  | .ok _, .error _ => .isFalse (by simp)
  | .error _, .ok _ => .isFalse (by simp)

/-- Decimal digit character table (`str(int)` emits these). -/
def digitChar (n : Nat) : Char :=
  match n with
  | 0 => '0' | 1 => '1' | 2 => '2' | 3 => '3' | 4 => '4'
  | 5 => '5' | 6 => '6' | 7 => '7' | 8 => '8' | _ => '9'

/-- Lowercase hexadecimal digit character table (`format(n, "x")` emits these). -/
def hexDigitChar (n : Nat) : Char :=
  match n with
  | 0 => '0' | 1 => '1' | 2 => '2' | 3 => '3' | 4 => '4'
  | 5 => '5' | 6 => '6' | 7 => '7' | 8 => '8' | 9 => '9'
  | 10 => 'a' | 11 => 'b' | 12 => 'c' | 13 => 'd' | 14 => 'e' | _ => 'f'

/-- Python `str(n)` for a natural number: its decimal digits.  Structural
recursion on a fuel argument so that terms reduce in the kernel; `fuel > n`
always holds at the call site. -/
def pyStrNatAux : Nat → Nat → PyStr
  | 0, _ => []
  | fuel + 1, n =>
    if n < 10 then [digitChar n]
    else pyStrNatAux fuel (n / 10) ++ [digitChar (n % 10)]

def pyStrNat (n : Nat) : PyStr := pyStrNatAux (n + 1) n

/-- Python `str(n)` for an `int`. -/
def pyStrInt (n : Int) : PyStr :=
  if n < 0 then '-' :: pyStrNat (-n).toNat else pyStrNat n.toNat

/-- Value of a decimal digit character, `none` for any other character.
Code points: `0` to `9` are 48 to 57. -/
def digitVal? (c : Char) : Option Nat :=
  if 48 ≤ c.toNat ∧ c.toNat ≤ 57 then some (c.toNat - 48) else none

/-- Value of a hexadecimal digit character (either case), as `int(-, 16)` accepts.
Code points: `a` to `f` are 97 to 102, `A` to `F` are 65 to 70. -/
def hexDigitVal? (c : Char) : Option Nat :=
  if 48 ≤ c.toNat ∧ c.toNat ≤ 57 then some (c.toNat - 48)
  else if 97 ≤ c.toNat ∧ c.toNat ≤ 102 then some (c.toNat - 97 + 10)
  else if 65 ≤ c.toNat ∧ c.toNat ≤ 70 then some (c.toNat - 65 + 10)
  else none

/-- Accumulating left-to-right digit parse in base `b` with digit reader `dv`. -/
def parseDigitsAcc (dv : Char → Option Nat) (b : Nat) : PyStr → Nat → Option Nat
  | [], acc => some acc
  | c :: rest, acc =>
    match dv c with
    | some d => parseDigitsAcc dv b rest (acc * b + d)
    | none => none

/-- Python `str.strip()`: drop whitespace from both ends. -/
def pyStrip (l : PyStr) : PyStr :=
  ((l.dropWhile Char.isWhitespace).reverse.dropWhile Char.isWhitespace).reverse

/-- Sign-and-digits parse on an already stripped string. -/
def pyIntSigned (dv : Char → Option Nat) (b : Nat) : PyStr → Option Int
  | [] => none
  | c :: rest =>
    if c = '-' then
      if rest = [] then none else (parseDigitsAcc dv b rest 0).map (fun n => -(n : Int))
    else if c = '+' then
      if rest = [] then none else (parseDigitsAcc dv b rest 0).map (fun n => (n : Int))
    else (parseDigitsAcc dv b (c :: rest) 0).map (fun n => (n : Int))

/-- Shared body of `int(s)` and `int(s, 16)`: strip whitespace, optional sign,
then a nonempty run of digits. (Underscore digit grouping and, for base 16,
an optional `0x` prefix are accepted by Python but never arise in this
program; they are not modelled.) -/
def pyIntBase? (dv : Char → Option Nat) (b : Nat) (s : PyStr) : Option Int :=
  pyIntSigned dv b (pyStrip s)

/-- Python `int(s)` (decimal). -/
def pyIntDec? (s : PyStr) : Option Int := pyIntBase? digitVal? 10 s

/-- Python `int(s, 16)`. -/
def pyIntHex? (s : PyStr) : Option Int := pyIntBase? hexDigitVal? 16 s

/-- Python slice `s[a:b]` (with clamping semantics for nonnegative bounds). -/
def pySlice (s : PyStr) (a b : Nat) : PyStr := (s.drop a).take (b - a)

/-- Uppercase one character (ASCII letters; all strings in this program are
ASCII).  Code points: `a` to `z` are 97 to 122. -/
def pyCharUpper (c : Char) : Char :=
  if 97 ≤ c.toNat ∧ c.toNat ≤ 122 then Char.ofNat (c.toNat - 32) else c

/-- Python `str.upper()`. -/
def pyUpper (l : PyStr) : PyStr := l.map pyCharUpper

/-- Python `str.split()` helper: accumulate the current (reversed) token. -/
def splitWsAux : PyStr → PyStr → List PyStr
  | [], acc => if acc = [] then [] else [acc.reverse]
  | c :: rest, acc =>
    if c.isWhitespace then
      if acc = [] then splitWsAux rest [] else acc.reverse :: splitWsAux rest []
    else splitWsAux rest (c :: acc)

/-- Python `str.split()` with no argument: split on whitespace runs, no empty tokens. -/
def pySplitWs (l : PyStr) : List PyStr := splitWsAux l []

/-- Python `" ".join(tokens)`. -/
def joinSpace : List PyStr → PyStr
  | [] => []
  | t :: rest => t ++ (if rest = [] then [] else ' ' :: joinSpace rest)

/-- Python `s.startswith(p)` for a single-character prefix. -/
def pyStartsWith (s : PyStr) (c : Char) : Bool :=
  match s with
  | [] => false
  | x :: _ => x = c

/-- Python `s.lstrip(chars)` for the single character `#`. -/
def pyLstripHash (s : PyStr) : PyStr := s.dropWhile (· = '#')

/-- Python truncation `int(q)` on a number: round toward zero. -/
def pyTrunc (q : Rat) : Int := if 0 ≤ q then ⌊q⌋ else -⌊-q⌋

/-- Python `round(q)` on a number: round half to even. -/
def pyRound (q : Rat) : Int :=
  if Int.fract q < 1 / 2 then ⌊q⌋
  else if 1 / 2 < Int.fract q then ⌊q⌋ + 1
  else if ⌊q⌋ % 2 = 0 then ⌊q⌋ else ⌊q⌋ + 1

/-- Python `x % m` on numbers, for a positive modulus `m`: result in `[0, m)`. -/
def pyMod (x m : Rat) : Rat := x - m * ⌊x / m⌋

/-- Hexadecimal digits of `n`, lowercase, most significant first
(`format(n, "x")`).  Fuel-based for kernel reducibility. -/
def natToHexDigitsAux : Nat → Nat → PyStr
  | 0, _ => []
  | fuel + 1, n =>
    if n < 16 then [hexDigitChar n]
    else natToHexDigitsAux fuel (n / 16) ++ [hexDigitChar (n % 16)]

def natToHexDigits (n : Nat) : PyStr := natToHexDigitsAux (n + 1) n

/-- Python format `f"\x7bn:02x\x7d"`: lowercase hex, zero-padded to width 2. -/
def format02x (n : Int) : PyStr :=
  if n < 0 then '-' :: natToHexDigits (-n).toNat
  else if n.toNat < 16 then '0' :: natToHexDigits n.toNat
  else natToHexDigits n.toNat

/-!  Model of `src/colourutils.py`.  -/

/-- `colourutils.hex_to_rgb_tuple`:
`hex_color.lstrip("#")`, then `int(hex_color[i:i+2], 16) for i in (0, 2, 4)`.
A Python `ValueError` from `int` is modelled as `none`. -/
def hex_to_rgb_tuple (hex_color : PyStr) : Option (Int × Int × Int) :=
  let t := pyLstripHash hex_color
  match pyIntHex? (pySlice t 0 2), pyIntHex? (pySlice t 2 4), pyIntHex? (pySlice t 4 6) with
  | some r, some g, some b => some (r, g, b)
  | _, _, _ => none

/-- `colorsys.hsv_to_rgb` from the Python standard library (the documented
dependency of `colourutils.hsv_to_hex`), with float arithmetic modelled as
exact rational arithmetic. -/
def colorsys_hsv_to_rgb (h s v : Rat) : Rat × Rat × Rat :=
  if s = 0 then (v, v, v)
  else
    let i0 : Int := pyTrunc (h * 6)
    let f : Rat := h * 6 - (i0 : Rat)
    let p : Rat := v * (1 - s)
    let q : Rat := v * (1 - s * f)
    let t : Rat := v * (1 - s * (1 - f))
    let i : Int := i0 % 6
    if i = 0 then (v, t, p)
    else if i = 1 then (q, v, p)
    else if i = 2 then (p, q, t)
    else if i = 3 then (p, v, q)
    else if i = 4 then (t, p, v)
    else (v, q, t)

/-- `colourutils.hsv_to_hex`: normalize hue by `% 360`, scale and clamp s and v
to `[0, 1]`, convert, round each channel, format as `#rrggbb`. -/
def hsv_to_hex (h_deg s_pct v_pct : Rat) : PyStr :=
  let h := pyMod h_deg 360 / 360
  let s := max 0 (min 1 (s_pct / 100))
  let v := max 0 (min 1 (v_pct / 100))
  let rgb := colorsys_hsv_to_rgb h s v
  let r_i := pyRound (rgb.1 * 255)
  let g_i := pyRound (rgb.2.1 * 255)
  let b_i := pyRound (rgb.2.2 * 255)
  '#' :: (format02x r_i ++ format02x g_i ++ format02x b_i)

/-!  Model of the `PaletteApp` state in `src/lswpalette.py`.

The mutable fields relevant to the core are `self.cols`, the hue variable
`self.h_var`, the ordered row list `self.rows` (each row carrying its S and V
integer values), the ordered favorites list `self.palette_hexes` and the
auxiliary membership set `self.palette_hex_set`.  The rendered cell matrix
`self.cell_hex` is recomputed by `_update_grid` from these fields after every
mutation and is therefore modelled as the derived function `computeMatrix`.  -/

structure AppState where
  cols : Int
  h : Int
  rows : List (Int × Int)
  palette_hexes : List PyStr
  palette_hex_set : List PyStr
deriving DecidableEq, Repr

/-- Hue list of `_update_grid`:
`step = 360.0 / self.cols`; `hue_steps = [(base_h + step * i) % 360 for i in range(self.cols)]`. -/
def hueSteps (cols : Int) (base_h : Int) : List Rat :=
  (List.range cols.toNat).map fun (i : Nat) =>
    pyMod ((base_h : Rat) + 360 / (cols : Rat) * (i : Rat)) 360

/-- The cell matrix computed by `_update_grid`: one fixed top row at S = V = 100,
then one row per adjustable row using that row S and V values. -/
def computeMatrix (cols : Int) (base_h : Int) (rows : List (Int × Int)) : List (List PyStr) :=
  ((hueSteps cols base_h).map fun hq => hsv_to_hex hq 100 100)
    :: rows.map fun sv => (hueSteps cols base_h).map fun hq => hsv_to_hex hq (sv.1 : Rat) (sv.2 : Rat)

/-- Default S and V of `_on_add_row_click`: 70, or the clamped truncated average
`max(0, min(100, int((last_s + last_v) / 2)))` of the last row. -/
def addRowDefault (rows : List (Int × Int)) : Int :=
  match rows.getLast? with
  | none => 70
  | some sv => max 0 (min 100 (pyTrunc (((sv.1 : Rat) + (sv.2 : Rat)) / 2)))

/-- `_on_add_row_click`: append a row whose S and V are both the default. -/
def onAddRowClick (rows : List (Int × Int)) : List (Int × Int) :=
  rows ++ [(addRowDefault rows, addRowDefault rows)]

/-- `_drag_end` row reordering: with recorded `start` index and computed
`insert_index`, a no-op when `insert_index` is `start` or `start + 1`;
otherwise `pop(start)` followed by `insert` at the adjusted index. -/
def dragEnd (rows : List (Int × Int)) (start insert_index : Nat) : List (Int × Int) :=
  if insert_index = start ∨ insert_index = start + 1 then rows
  else
    match rows[start]? with
    | none => rows
    | some row =>
      let rest := rows.eraseIdx start
      let idx := if start < insert_index then insert_index - 1 else insert_index
      rest.insertIdx idx row

/-- `_palette_add_color`: empty-guard, case-insensitive duplicate check against
`self.palette_hexes`, uppercase, a second check against `self.palette_hex_set`,
then append to the list and add to the set. -/
def palette_add_color (st : AppState) (hex_color : PyStr) : AppState :=
  if hex_color = [] then st
  else if pyUpper hex_color ∈ st.palette_hexes.map pyUpper then st
  else
    let hexU := pyUpper hex_color
    if hexU ∈ st.palette_hex_set then st
    else { st with palette_hexes := st.palette_hexes ++ [hexU],
                   palette_hex_set := hexU :: st.palette_hex_set }

/-- `_palette_remove_ctx` with a remembered color: remove from the set if
present, and filter the list case-insensitively. -/
def palette_remove (st : AppState) (hex_color : PyStr) : AppState :=
  if hex_color = [] then st
  else
    let hex_target := pyUpper hex_color
    { st with palette_hex_set := st.palette_hex_set.filter (fun x => x ≠ hex_target),
              palette_hexes := st.palette_hexes.filter (fun x => pyUpper x ≠ hex_target) }

/-- The first-seen-order deduplication loop of `_apply_imported_palette`
(input items already uppercased). -/
def dedupKeepFirst : List PyStr → List PyStr → List PyStr
  | [], _ => []
  | x :: rest, seen =>
    if x ∈ seen then dedupKeepFirst rest seen
    else x :: dedupKeepFirst rest (x :: seen)

/-- `_apply_imported_palette`: replace `self.palette_hexes` with the uppercased,
order-preserving deduplication of `items`.  Note the Python method never
touches `self.palette_hex_set`. -/
def apply_imported_palette (st : AppState) (items : List PyStr) : AppState :=
  { st with palette_hexes := dedupKeepFirst (items.map pyUpper) [] }

/-!  Model of `_export_ini` and `_import_ini`. -/

def kMeta : PyStr := "meta".toList
def kApp : PyStr := "app".toList
def kVersion : PyStr := "version".toList
def kInputs : PyStr := "inputs".toList
def kHex : PyStr := "hex".toList
def kPalette : PyStr := "palette".toList
def kCols : PyStr := "cols".toList
def kH : PyStr := "h".toList
def kRowsCount : PyStr := "rows_count".toList
def kColors : PyStr := "colors".toList
def kRow : PyStr := "row".toList
def kSufS : PyStr := "_s".toList
def kSufV : PyStr := "_v".toList
def vAppName : PyStr := "hsv_palette_designer".toList
def vAppVersion : PyStr := "0.1".toList

/-- Key `row{i}_s`. -/
def rowKeyS (i : Nat) : PyStr := kRow ++ pyStrNat i ++ kSufS

/-- Key `row{i}_v`. -/
def rowKeyV (i : Nat) : PyStr := kRow ++ pyStrNat i ++ kSufV

/-- Key `row{r}` of the hex section. -/
def rowKeyHex (r : Nat) : PyStr := kRow ++ pyStrNat r

/-- First-match key lookup in a section (configparser mapping access). -/
def lookupKey : IniSec → PyStr → Option PyStr
  | [], _ => none
  | (k, v) :: rest, key => if k = key then some v else lookupKey rest key

/-- First-match section lookup in a document. -/
def lookupSec : IniDoc → PyStr → Option IniSec
  | [], _ => none
  | (n, s) :: rest, name => if n = name then some s else lookupSec rest name

/-- The `row{i}_s`/`row{i}_v` pairs of the exported `[inputs]` section
(`for i, r in enumerate(self.rows, start=2)`). -/
def exportRowKeys : Nat → List (Int × Int) → IniSec
  | _, [] => []
  | i, sv :: rest =>
    (rowKeyS i, pyStrInt sv.1) :: (rowKeyV i, pyStrInt sv.2) :: exportRowKeys (i + 1) rest

/-- The exported `[hex]` section: key `row{r+1}` maps to the space-joined
uppercased cell colors of matrix row `r`. -/
def exportHexRows : Nat → List (List PyStr) → IniSec
  | _, [] => []
  | r, rowHex :: rest =>
    (rowKeyHex r, joinSpace (rowHex.map pyUpper)) :: exportHexRows (r + 1) rest

/-- `_export_ini` (the document written; the file dialog and disk write are
presentation-layer concerns).  `self.cell_hex` always holds
`computeMatrix cols h rows` when export runs, because `_update_grid` refreshes
it after every mutation. -/
def exportIni (st : AppState) : IniDoc :=
  [ (kMeta, [(kApp, vAppName), (kVersion, vAppVersion)]),
    (kInputs,
      (kCols, pyStrInt st.cols) :: (kH, pyStrInt st.h)
        :: (kRowsCount, pyStrInt (st.rows.length : Int))
        :: exportRowKeys 2 st.rows),
    (kHex, exportHexRows 1 (computeMatrix st.cols st.h st.rows)),
    (kPalette, [(kColors, joinSpace (st.palette_hexes.map pyUpper))]) ]

/-- The S/V reading loop of `_import_ini`: for `i in range(2, rows_count + 2)`,
parse `row{i}_s` and `row{i}_v` as integers and require both in `[0, 100]`. -/
def readSVs (inputs : IniSec) : Nat → Nat → Except PyStr (List (Int × Int))
  | _, 0 => .ok []
  | i, n + 1 =>
    match (lookupKey inputs (rowKeyS i)).bind pyIntDec?,
          (lookupKey inputs (rowKeyV i)).bind pyIntDec? with
    | some s, some v =>
      if 0 ≤ s ∧ s ≤ 100 ∧ 0 ≤ v ∧ v ≤ 100 then
        match readSVs inputs (i + 1) n with
        | .ok svs => .ok ((s, v) :: svs)
        | .error e => .error e
      else .error ("Invalid INI: S/V must be 0-100.".toList)
    | _, _ => .error ("Invalid INI: missing S/V for a row.".toList)

/-- The hex-shape validation loop of `_import_ini`: for `r` in
`range(1, total_rows + 1)`, the key `row{r}` must exist and its value must
split into exactly `cols` tokens, each 7 characters long and starting `#`. -/
def checkHexRows (hex_sec : IniSec) (cols : Int) : Nat → Nat → Except PyStr Unit
  | _, 0 => .ok ()
  | r, n + 1 =>
    match lookupKey hex_sec (rowKeyHex r) with
    | none => .error ("Invalid INI: missing hex list.".toList)
    | some value =>
      let arr := (pySplitWs value).map fun x => pyUpper (pyStrip x)
      if (arr.length : Int) = cols ∧ arr.all (fun x => x.length = 7 && pyStartsWith x '#') then
        checkHexRows hex_sec cols (r + 1) n
      else .error ("Invalid INI: hex list shape mismatch.".toList)

/-- Validation steps 1-4 of `_import_ini`: required sections, integer parses,
range checks, per-row S/V reads, hex grid shape.  Returns the parsed
`(cols, h, sv_vals)` on success.  `MIN_COLS = 2`, `MAX_COLS = 360`. -/
def validate14 (doc : IniDoc) : Except PyStr (Int × Int × List (Int × Int)) :=
  match lookupSec doc kInputs, lookupSec doc kHex with
  | some inputs, some hex_sec =>
    match (lookupKey inputs kCols).bind pyIntDec?,
          (lookupKey inputs kH).bind pyIntDec?,
          (lookupKey inputs kRowsCount).bind pyIntDec? with
    | some cols, some h, some rows_count =>
      if (2 ≤ cols ∧ cols ≤ 360) ∧ (0 ≤ h ∧ h ≤ 359) ∧ (0 ≤ rows_count ∧ rows_count ≤ 50) then
        match readSVs inputs 2 rows_count.toNat with
        | .error e => .error e
        | .ok sv_vals =>
          match checkHexRows hex_sec cols 1 (rows_count.toNat + 1) with
          | .error e => .error e
          | .ok _ => .ok (cols, h, sv_vals)
      else .error ("Invalid INI: out-of-range values.".toList)
    | _, _, _ => .error ("Invalid INI: cols, h, rows_count must be integers.".toList)
  | _, _ => .error ("Invalid INI: missing inputs or hex sections.".toList)

/-- `_import_ini` on an already parsed document.  Returns the error surfaced to
the user (`none` on success) together with the state after the call.  Mirrors
the Python control flow exactly: validation steps 1-4 happen before any
mutation, then rows, cols and hue are replaced and the grid rebuilt, and only
then is the `[palette]` section examined. -/
def importIni (doc : IniDoc) (st : AppState) : Option PyStr × AppState :=
  match validate14 doc with
  | .error e => (some e, st)
  | .ok parsed =>
    let st1 : AppState := { st with cols := parsed.1, h := parsed.2.1, rows := parsed.2.2 }
    match lookupSec doc kPalette with
    | none => (none, st1)
    | some pal =>
      let raw := pyStrip ((lookupKey pal kColors).getD [])
      if raw = [] then (none, apply_imported_palette st1 [])
      else
        let items := (pySplitWs raw).map fun x => pyUpper (pyStrip x)
        if items.any (fun x => x.length ≠ 7 || !pyStartsWith x '#') then
          (some ("Invalid INI: palette colors must be #RRGGBB-shaped.".toList), st1)
        else (none, apply_imported_palette st1 items)

/-!  Helper lemmas: characters and digit strings.  -/

theorem char_ne_of_toNat {a b : Char} (h : a.toNat ≠ b.toNat) : a ≠ b := by
  intro he; exact h (congrArg Char.toNat he)

theorem not_ws_of_big (c : Char) (h : 33 ≤ c.toNat) : c.isWhitespace = false := by
  have h1 : c ≠ ' ' := fun he => by subst he; exact absurd h (by decide)
  have h2 : c ≠ '\t' := fun he => by subst he; exact absurd h (by decide)
  have h3 : c ≠ '\r' := fun he => by subst he; exact absurd h (by decide)
  have h4 : c ≠ '\n' := fun he => by subst he; exact absurd h (by decide)
  simp [Char.isWhitespace, h1, h2, h3, h4]

theorem digitChar_spec (d : Nat) (hd : d < 10) :
    (digitChar d).toNat = 48 + d := by
  interval_cases d <;> decide

theorem hexDigitChar_spec (d : Nat) (hd : d < 16) :
    hexDigitVal? (hexDigitChar d) = some d ∧ (hexDigitChar d).isWhitespace = false ∧
      hexDigitChar d ≠ '-' ∧ hexDigitChar d ≠ '+' ∧ hexDigitChar d ≠ '#' := by
  interval_cases d <;> exact ⟨by decide, by decide, by decide, by decide, by decide⟩

theorem digitVal_digitChar (d : Nat) (hd : d < 10) :
    digitVal? (digitChar d) = some d := by
  interval_cases d <;> decide

theorem digitChar_facts (d : Nat) (hd : d < 10) :
    (digitChar d).isWhitespace = false ∧ digitChar d ≠ '-' ∧ digitChar d ≠ '+' := by
  interval_cases d <;> exact ⟨by decide, by decide, by decide⟩

theorem pyStrNatAux_congr : ∀ (f1 f2 n : Nat), n < f1 → n < f2 →
    pyStrNatAux f1 n = pyStrNatAux f2 n := by
  intro f1
  induction f1 with
  | zero => omega
  | succ f ih =>
    intro f2 n h1 h2
    cases f2 with
    | zero => omega
    | succ g =>
      simp only [pyStrNatAux]
      by_cases h : n < 10
      · simp [h]
      · have hdiv : n / 10 < n := Nat.div_lt_self (by omega) (by omega)
        rw [if_neg h, if_neg h, ih g (n / 10) (by omega) (by omega)]

theorem pyStrNat_eq (n : Nat) : pyStrNat n =
    if n < 10 then [digitChar n] else pyStrNat (n / 10) ++ [digitChar (n % 10)] := by
  have hdiv : n < 10 ∨ n / 10 < n := by
    by_cases h : n < 10
    · exact Or.inl h
    · exact Or.inr (Nat.div_lt_self (by omega) (by omega))
  rw [pyStrNat, pyStrNatAux]
  by_cases h : n < 10
  · simp [h]
  · rw [if_neg h, if_neg h, pyStrNat,
      pyStrNatAux_congr n (n / 10 + 1) (n / 10) (by omega) (by omega)]

theorem pyStrNat_shape (n : Nat) :
    ∀ c ∈ pyStrNat n, ∃ d, d < 10 ∧ c = digitChar d := by
  induction n using Nat.strong_induction_on with
  | _ n ih =>
    rw [pyStrNat_eq]
    by_cases h : n < 10
    · rw [if_pos h]
      intro c hc
      simp only [List.mem_singleton] at hc
      exact ⟨n, h, hc⟩
    · rw [if_neg h]
      intro c hc
      rcases List.mem_append.mp hc with hc | hc
      · exact ih (n / 10) (Nat.div_lt_self (by omega) (by omega)) c hc
      · simp only [List.mem_singleton] at hc
        exact ⟨n % 10, Nat.mod_lt _ (by omega), hc⟩

theorem pyStrNat_head (n : Nat) :
    ∃ d t, d < 10 ∧ pyStrNat n = digitChar d :: t := by
  induction n using Nat.strong_induction_on with
  | _ n ih =>
    rw [pyStrNat_eq]
    by_cases h : n < 10
    · rw [if_pos h]; exact ⟨n, [], h, rfl⟩
    · rw [if_neg h]
      obtain ⟨d, t, hd, he⟩ := ih (n / 10) (Nat.div_lt_self (by omega) (by omega))
      exact ⟨d, t ++ [digitChar (n % 10)], hd, by rw [he]; rfl⟩

theorem pyStrNat_ne_nil (n : Nat) : pyStrNat n ≠ [] := by
  obtain ⟨d, t, _, he⟩ := pyStrNat_head n
  rw [he]; exact List.cons_ne_nil _ _

theorem parseDigitsAcc_append (dv : Char → Option Nat) (b : Nat) (l1 l2 : PyStr) (acc : Nat) :
    parseDigitsAcc dv b (l1 ++ l2) acc =
      match parseDigitsAcc dv b l1 acc with
      | some m => parseDigitsAcc dv b l2 m
      | none => none := by
  induction l1 generalizing acc with
  | nil => rfl
  | cons c rest ih =>
    simp only [List.cons_append, parseDigitsAcc]
    cases dv c with
    | some d => exact ih _
    | none => rfl

theorem parseDigitsAcc_pyStrNat (n acc : Nat) :
    parseDigitsAcc digitVal? 10 (pyStrNat n) acc =
      some (acc * 10 ^ (pyStrNat n).length + n) := by
  induction n using Nat.strong_induction_on generalizing acc with
  | _ n ih =>
    rw [pyStrNat_eq]
    by_cases h : n < 10
    · rw [if_pos h]
      simp only [parseDigitsAcc, digitVal_digitChar n h, List.length_singleton, pow_one]
    · rw [if_neg h]
      rw [parseDigitsAcc_append]
      rw [ih (n / 10) (Nat.div_lt_self (by omega) (by omega)) acc]
      simp only [parseDigitsAcc, digitVal_digitChar (n % 10) (Nat.mod_lt _ (by omega))]
      have hlen : (pyStrNat (n / 10) ++ [digitChar (n % 10)]).length =
          (pyStrNat (n / 10)).length + 1 := by simp
      rw [hlen]
      congr 1
      have : n % 10 + 10 * (n / 10) = n := Nat.mod_add_div n 10
      ring_nf
      omega

theorem parseNat_pyStrNat (n : Nat) :
    parseDigitsAcc digitVal? 10 (pyStrNat n) 0 = some n := by
  rw [parseDigitsAcc_pyStrNat]; simp

theorem pyStrNat_injective : Function.Injective pyStrNat := by
  intro a b h
  have ha := parseNat_pyStrNat a
  have hb := parseNat_pyStrNat b
  rw [h, hb] at ha
  exact (Option.some.injEq _ _).mp ha.symm

theorem dropWhile_ws_eq_self (m : PyStr) (hm : ∀ c ∈ m, c.isWhitespace = false) :
    m.dropWhile Char.isWhitespace = m := by
  cases m with
  | nil => rfl
  | cons c rest =>
    rw [List.dropWhile_cons, if_neg (by simp [hm c (List.mem_cons_self c rest)])]

theorem pyStrip_eq_self (l : PyStr) (hl : ∀ c ∈ l, c.isWhitespace = false) :
    pyStrip l = l := by
  rw [pyStrip, dropWhile_ws_eq_self l hl,
    dropWhile_ws_eq_self l.reverse (fun c hc => hl c (List.mem_reverse.mp hc)),
    List.reverse_reverse]

theorem pyStrip_digits (n : Nat) : pyStrip (pyStrNat n) = pyStrNat n := by
  apply pyStrip_eq_self
  intro c hc
  obtain ⟨d, hd, he⟩ := pyStrNat_shape n c hc
  exact he ▸ (digitChar_facts d hd).1

theorem pyIntSigned_no_sign (dv : Char → Option Nat) (b : Nat) (c : Char) (rest : PyStr)
    (hm : c ≠ '-') (hp : c ≠ '+') :
    pyIntSigned dv b (c :: rest) = (parseDigitsAcc dv b (c :: rest) 0).map (fun n => (n : Int)) := by
  rw [pyIntSigned, if_neg hm, if_neg hp]

theorem pyIntDec_pyStrNat (n : Nat) : pyIntDec? (pyStrNat n) = some (n : Int) := by
  rw [pyIntDec?, pyIntBase?, pyStrip_digits]
  obtain ⟨d, t, hd, he⟩ := pyStrNat_head n
  obtain ⟨-, hm, hp⟩ := digitChar_facts d hd
  rw [he, pyIntSigned_no_sign _ _ _ _ hm hp, ← he, parseNat_pyStrNat]
  rfl

theorem pyIntDec_pyStrInt (n : Int) (hn : 0 ≤ n) : pyIntDec? (pyStrInt n) = some n := by
  rw [pyStrInt, if_neg (by omega)]
  rw [pyIntDec_pyStrNat]
  congr
  omega

/-!  Concrete documents and states used by the claim theorems.  -/

/-- A state with favorites present, used to observe import effects. -/
def stFav : AppState := ⟨7, 25, [(85, 85)], ["#ABCDEF".toList], ["#ABCDEF".toList]⟩

/-- A document that passes validation steps 1-4 (cols 2, hue 0, no adjustable
rows, a well-shaped one-row hex grid) and has a malformed `[palette]` token. -/
def docBadPalette : IniDoc :=
  [ (kInputs, [(kCols, "2".toList), (kH, "0".toList), (kRowsCount, "0".toList)]),
    (kHex, [(rowKeyHex 1, "#FF0000 #00FFFF".toList)]),
    (kPalette, [(kColors, "XYZ".toList)]) ]

/-- The same valid core document with no `[palette]` section at all. -/
def docNoPalette : IniDoc :=
  [ (kInputs, [(kCols, "2".toList), (kH, "0".toList), (kRowsCount, "0".toList)]),
    (kHex, [(rowKeyHex 1, "#FF0000 #00FFFF".toList)]) ]

/-- Out-of-bounds documents: `rows_count = 51`, `cols = 1`, `cols = 361`. -/
def docRows51 : IniDoc :=
  [ (kInputs, [(kCols, "2".toList), (kH, "0".toList), (kRowsCount, "51".toList)]),
    (kHex, [(rowKeyHex 1, "#FF0000 #00FFFF".toList)]) ]

def docCols1 : IniDoc :=
  [ (kInputs, [(kCols, "1".toList), (kH, "0".toList), (kRowsCount, "0".toList)]),
    (kHex, [(rowKeyHex 1, "#FF0000".toList)]) ]

def docCols361 : IniDoc :=
  [ (kInputs, [(kCols, "361".toList), (kH, "0".toList), (kRowsCount, "0".toList)]),
    (kHex, [(rowKeyHex 1, "#FF0000".toList)]) ]

/-!  C1: import atomicity on a malformed palette section.  -/

/-- C1 counterexample: a document that passes validation steps 1-4 but has a
palette token that is not 7 characters starting with `#`.  The import is
rejected (an error is surfaced), yet state is NOT left as it was: the grid
configuration and the row model have already been replaced (cols becomes 2,
hue 0, rows emptied); only the favorites list survives.  This refutes the
claim that no partial state change occurs. -/
theorem c1_counterexample :
    (importIni docBadPalette stFav).1.isSome = true
  ∧ (importIni docBadPalette stFav).2 ≠ stFav
  ∧ (importIni docBadPalette stFav).2.cols = 2
  ∧ stFav.cols = 7
  ∧ (importIni docBadPalette stFav).2.rows = []
  ∧ stFav.rows = [(85, 85)]
  ∧ (importIni docBadPalette stFav).2.palette_hexes = stFav.palette_hexes := by decide

/-- C1 (amended): when a document passes validation steps 1-4 but its
`[palette]` section holds a malformed token, `importIni` surfaces an error and
leaves the favorites collection unchanged, but the grid configuration and the
row model have already been replaced by the imported values: the import is not
all-or-nothing. -/
theorem c1_amended_partial_mutation (doc : IniDoc) (st : AppState)
    (cols h : Int) (svs : List (Int × Int)) (pal : IniSec)
    (hval : validate14 doc = .ok (cols, h, svs))
    (hpal : lookupSec doc kPalette = some pal)
    (hraw : pyStrip ((lookupKey pal kColors).getD []) ≠ [])
    (hbad : ((pySplitWs (pyStrip ((lookupKey pal kColors).getD []))).map
        fun x => pyUpper (pyStrip x)).any
          (fun x => x.length ≠ 7 || !pyStartsWith x '#') = true) :
    (importIni doc st).1 ≠ none
  ∧ (importIni doc st).2 = { st with cols := cols, h := h, rows := svs } := by
  rw [importIni, hval]
  simp only [hpal, if_neg hraw, hbad, if_true]
  exact ⟨by simp, by trivial⟩

/-- C1 witness: the amended theorem applied to the concrete document. -/
theorem c1_amended_witness :
    (importIni docBadPalette stFav).1 ≠ none
  ∧ (importIni docBadPalette stFav).2 = { stFav with cols := 2, h := 0, rows := [] } :=
  c1_amended_partial_mutation docBadPalette stFav 2 0 [] [(kColors, "XYZ".toList)]
    (by decide) (by decide) (by decide) (by decide)

/-!  C3: favorites when the `[palette]` section is absent.  -/

/-- C3 counterexample: a successful import of a document with no `[palette]`
section leaves the favorites collection exactly as it was (here, still one
entry), not cleared, refuting the claim. -/
theorem c3_counterexample :
    (importIni docNoPalette stFav).1 = none
  ∧ (importIni docNoPalette stFav).2.palette_hexes = ["#ABCDEF".toList]
  ∧ (importIni docNoPalette stFav).2.palette_hexes ≠ [] := by decide

/-- C3 (amended): for every document that passes import validation and has no
`[palette]` section, the import succeeds and replaces grid configuration and
rows, while the favorites collection is left unchanged (it is cleared only
when the section is present with an empty color list). -/
theorem c3_amended_favorites_unchanged (doc : IniDoc) (st : AppState)
    (cols h : Int) (svs : List (Int × Int))
    (hval : validate14 doc = .ok (cols, h, svs))
    (hpal : lookupSec doc kPalette = none) :
    importIni doc st = (none, { st with cols := cols, h := h, rows := svs }) := by
  rw [importIni, hval]
  simp only [hpal]

/-- C3 witness: the amended theorem applied to the concrete document. -/
theorem c3_amended_witness :
    importIni docNoPalette stFav = (none, { stFav with cols := 2, h := 0, rows := [] }) :=
  c3_amended_favorites_unchanged docNoPalette stFav 2 0 [] (by decide) (by decide)

/-!  C8: bounds rejection without mutation.  -/

/-- C8: whenever the parsed `cols`, `h`, `rows_count` of a document violate the
bounds `cols in [2, 360]`, `h in [0, 359]`, `rows_count in [0, 50]`, the import
fails and returns the state unchanged. -/
theorem c8_bounds_reject (doc : IniDoc) (st : AppState) (inputs hex_sec : IniSec)
    (cols h rows_count : Int)
    (hin : lookupSec doc kInputs = some inputs)
    (hhex : lookupSec doc kHex = some hex_sec)
    (hc : (lookupKey inputs kCols).bind pyIntDec? = some cols)
    (hh : (lookupKey inputs kH).bind pyIntDec? = some h)
    (hrc : (lookupKey inputs kRowsCount).bind pyIntDec? = some rows_count)
    (hbad : ¬ ((2 ≤ cols ∧ cols ≤ 360) ∧ (0 ≤ h ∧ h ≤ 359) ∧ (0 ≤ rows_count ∧ rows_count ≤ 50))) :
    ∃ e, importIni doc st = (some e, st) := by
  have hval : validate14 doc = .error ("Invalid INI: out-of-range values.".toList) := by
    rw [validate14, hin, hhex]
    simp only [hc, hh, hrc]
    rw [if_neg hbad]
  rw [importIni, hval]
  exact ⟨_, rfl⟩

/-- C8 witness: bounds rejection at `rows_count = 51`, `cols = 1`, `cols = 361`. -/
theorem c8_bounds_reject_witness :
    (∃ e, importIni docRows51 stFav = (some e, stFav))
  ∧ (∃ e, importIni docCols1 stFav = (some e, stFav))
  ∧ (∃ e, importIni docCols361 stFav = (some e, stFav)) :=
  ⟨c8_bounds_reject docRows51 stFav
      [(kCols, "2".toList), (kH, "0".toList), (kRowsCount, "51".toList)]
      [(rowKeyHex 1, "#FF0000 #00FFFF".toList)] 2 0 51
      (by decide) (by decide) (by decide) (by decide) (by decide) (by decide),
    c8_bounds_reject docCols1 stFav
      [(kCols, "1".toList), (kH, "0".toList), (kRowsCount, "0".toList)]
      [(rowKeyHex 1, "#FF0000".toList)] 1 0 0
      (by decide) (by decide) (by decide) (by decide) (by decide) (by decide),
    c8_bounds_reject docCols361 stFav
      [(kCols, "361".toList), (kH, "0".toList), (kRowsCount, "0".toList)]
      [(rowKeyHex 1, "#FF0000".toList)] 361 0 0
      (by decide) (by decide) (by decide) (by decide) (by decide) (by decide)⟩

/-!  C7: favorites `add` after an import (stale duplicate-check set).  -/

/-- C7: the code contradicts the documented `add` semantics.  Starting from an
empty state: `add("#ABCDEF")` appends; importing an empty palette clears the
favorites list but `_apply_imported_palette` does not touch the stale
`palette_hex_set`; a subsequent `add("#ABCDEF")` then silently no-ops even
though no case-insensitively equal entry is present in the favorites list,
contradicting the claim (and the method docstring: add unless already
present). -/
theorem c7_add_after_import_bug :
    (palette_add_color (⟨7, 25, [], [], []⟩ : AppState) ("#ABCDEF".toList)).palette_hexes
        = ["#ABCDEF".toList]
  ∧ (apply_imported_palette
        (palette_add_color (⟨7, 25, [], [], []⟩ : AppState) ("#ABCDEF".toList)) []).palette_hexes
        = []
  ∧ (palette_add_color
        (apply_imported_palette
          (palette_add_color (⟨7, 25, [], [], []⟩ : AppState) ("#ABCDEF".toList)) [])
        ("#ABCDEF".toList)).palette_hexes
        = [] := by decide

/-!  C5: default S/V of a newly appended row.  -/

/-- C5: appending a row via the add-row button appends `(d, d)` where, for a
nonempty row list with last row `(s, v)` (both in `[0, 100]`), `d` is a nearest
integer to the true average `(s + v) / 2` (ties truncate downward) clamped to
`[0, 100]`; for an empty row list the default is 70/70. -/
theorem c5_add_row_default (rows : List (Int × Int)) :
    (rows = [] → onAddRowClick rows = [(70, 70)])
  ∧ (∀ s v : Int, rows.getLast? = some (s, v) →
      0 ≤ s → s ≤ 100 → 0 ≤ v → v ≤ 100 →
      onAddRowClick rows = rows ++ [(addRowDefault rows, addRowDefault rows)]
      ∧ 2 * addRowDefault rows ≤ s + v
      ∧ s + v ≤ 2 * addRowDefault rows + 1
      ∧ 0 ≤ addRowDefault rows ∧ addRowDefault rows ≤ 100) := by
  constructor
  · intro h; subst h; rfl
  · intro s v hl hs0 hs1 hv0 hv1
    have hmod := Int.emod_emod_of_dvd (s + v) (dvd_refl 2)
    have hdm : s + v = 2 * ((s + v) / 2) + (s + v) % 2 := (Int.ediv_add_emod _ _).symm
    have hr0 : 0 ≤ (s + v) % 2 := Int.emod_nonneg _ (by omega)
    have hr1 : (s + v) % 2 < 2 := Int.emod_lt_of_pos _ (by omega)
    have hd : addRowDefault rows = (s + v) / 2 := by
      simp only [addRowDefault, hl]
      have h0 : (0 : Rat) ≤ ((s : Rat) + (v : Rat)) / 2 := by
        have h1 : (0 : Rat) ≤ (s : Rat) := by exact_mod_cast hs0
        have h2 : (0 : Rat) ≤ (v : Rat) := by exact_mod_cast hv0
        positivity
      simp only [pyTrunc, if_pos h0]
      have hfl : ⌊(((s : Rat)) + (v : Rat)) / 2⌋ = (s + v) / 2 := by
        rw [Int.floor_eq_iff]
        constructor
        · rw [le_div_iff₀ (by norm_num)]
          have h2le : 2 * ((s + v) / 2) ≤ s + v := by omega
          exact_mod_cast by linarith [h2le]
        · rw [div_lt_iff₀ (by norm_num)]
          have h2lt : s + v < 2 * ((s + v) / 2 + 1) := by omega
          exact_mod_cast by linarith [h2lt]
      simp only [hfl]
      have hdb : 0 ≤ (s + v) / 2 ∧ (s + v) / 2 ≤ 100 := by omega
      rw [min_eq_right (by omega), max_eq_right (by omega)]
    refine ⟨rfl, ?_, ?_, ?_, ?_⟩ <;> rw [hd] <;> omega

/-- C5 witness: last row `(70, 71)`; the default is 70 (the truncated average),
a nearest integer to 70.5. -/
theorem c5_add_row_default_witness :
    onAddRowClick [((70 : Int), (71 : Int))]
        = [((70 : Int), (71 : Int))]
          ++ [(addRowDefault [((70 : Int), (71 : Int))], addRowDefault [((70 : Int), (71 : Int))])]
  ∧ 2 * addRowDefault [((70 : Int), (71 : Int))] ≤ 70 + 71
  ∧ (70 : Int) + 71 ≤ 2 * addRowDefault [((70 : Int), (71 : Int))] + 1
  ∧ 0 ≤ addRowDefault [((70 : Int), (71 : Int))]
  ∧ addRowDefault [((70 : Int), (71 : Int))] ≤ 100 :=
  (c5_add_row_default [((70 : Int), (71 : Int))]).2 70 71 rfl
    (by decide) (by decide) (by decide) (by decide)

/-!  C9: row reordering is a pure permutation.  -/

/-- C9: for every row list and every in-range drag (`start` an existing row
index, `tgt` an insertion slot up to the list length), `dragEnd` produces a
permutation of the rows (the multiset of S/V pairs is unchanged), and when the
target slot resolves to the current position (the slot just before or just
after the dragged row) the list is left identical. -/
theorem c9_drag_reorder (rows : List (Int × Int)) (start tgt : Nat)
    (hs : start < rows.length) (ht : tgt ≤ rows.length) :
    (dragEnd rows start tgt).Perm rows
  ∧ ((tgt = start ∨ tgt = start + 1) → dragEnd rows start tgt = rows) := by
  constructor
  · by_cases hno : tgt = start ∨ tgt = start + 1
    · rw [dragEnd, if_pos hno]
    · rw [dragEnd, if_neg hno]
      rw [List.getElem?_eq_getElem hs]
      have hlen : (rows.eraseIdx start).length = rows.length - 1 := by
        rw [List.length_eraseIdx]; simp [hs]
      have hidx : (if start < tgt then tgt - 1 else tgt) ≤ (rows.eraseIdx start).length := by
        rw [hlen]; split <;> omega
      have hdecomp : rows.take start ++ rows[start] :: rows.drop (start + 1) = rows := by
        conv_rhs => rw [← List.take_append_drop start rows]
        rw [List.drop_eq_getElem_cons hs]
      refine (List.perm_insertIdx _ _ hidx).trans ?_
      rw [List.eraseIdx_eq_take_drop_succ]
      refine List.Perm.trans List.perm_middle.symm ?_
      rw [hdecomp]
  · intro h
    rw [dragEnd, if_pos h]

/-- C9 witness: moving the first of three rows to the end slot permutes the
rows; the no-op slots leave the list identical. -/
theorem c9_drag_reorder_witness :
    (dragEnd [((1 : Int), (1 : Int)), (2, 2), (3, 3)] 0 3).Perm
        [((1 : Int), (1 : Int)), (2, 2), (3, 3)]
  ∧ (((3 : Nat) = 0 ∨ (3 : Nat) = 0 + 1) →
      dragEnd [((1 : Int), (1 : Int)), (2, 2), (3, 3)] 0 3
        = [((1 : Int), (1 : Int)), (2, 2), (3, 3)]) :=
  c9_drag_reorder [((1 : Int), (1 : Int)), (2, 2), (3, 3)] 0 3 (by decide) (by decide)

/-!  C4: matrix derivation.  -/

/-- C4: for every column count in `[2, 360]`, base hue and row list, the
computed matrix has `1 + rows.length` rows, each of exactly `cols` cells; the
hue of column `c` is `(base_h + c * 360 / cols) mod 360` in exact degree
arithmetic; row 0 holds `hsv_to_hex(hue_c, 100, 100)` and row `r + 1` holds
`hsv_to_hex(hue_c, s_r, v_r)` for row `r` of the row model; recomputation from
the same inputs yields the identical matrix (pure function). -/
theorem c4_matrix_derivation (cols base_h : Int) (rows : List (Int × Int))
    (h2 : 2 ≤ cols) (h360 : cols ≤ 360) :
    (computeMatrix cols base_h rows).length = 1 + rows.length
  ∧ (∀ row ∈ computeMatrix cols base_h rows, row.length = cols.toNat)
  ∧ (∀ c : Nat, c < cols.toNat →
      ((computeMatrix cols base_h rows)[0]?.bind fun r0 => r0[c]?) =
        some (hsv_to_hex (pyMod ((base_h : Rat) + (c : Rat) * (360 / (cols : Rat))) 360) 100 100))
  ∧ (∀ r : Nat, ∀ hr : r < rows.length, ∀ c : Nat, c < cols.toNat →
      ((computeMatrix cols base_h rows)[r + 1]?.bind fun rw => rw[c]?) =
        some (hsv_to_hex (pyMod ((base_h : Rat) + (c : Rat) * (360 / (cols : Rat))) 360)
          ((rows.get ⟨r, hr⟩).1 : Rat) ((rows.get ⟨r, hr⟩).2 : Rat)))
  ∧ computeMatrix cols base_h rows = computeMatrix cols base_h rows := by
  have hhue : ∀ c : Nat, c < cols.toNat →
      (hueSteps cols base_h)[c]? =
        some (pyMod ((base_h : Rat) + (c : Rat) * (360 / (cols : Rat))) 360) := by
    intro c hc
    rw [hueSteps, List.getElem?_map, List.getElem?_range hc]
    simp only [Option.map_some']
    congr 1
    ring_nf
  have hhlen : (hueSteps cols base_h).length = cols.toNat := by
    rw [hueSteps, List.length_map, List.length_range]
  refine ⟨?_, ?_, ?_, ?_, rfl⟩
  · rw [computeMatrix, List.length_cons, List.length_map]
    omega
  · intro row hrow
    rw [computeMatrix] at hrow
    rcases List.mem_cons.mp hrow with hrow | hrow
    · rw [hrow, List.length_map, hhlen]
    · obtain ⟨sv, _, hsv⟩ := List.mem_map.mp hrow
      rw [← hsv, List.length_map, hhlen]
  · intro c hc
    rw [computeMatrix]
    simp only [List.getElem?_cons_zero, Option.some_bind, List.getElem?_map, hhue c hc,
      Option.map_some']
  · intro r hr c hc
    rw [computeMatrix]
    simp only [List.getElem?_cons_succ, List.getElem?_map]
    rw [List.getElem?_eq_getElem hr]
    simp only [Option.map_some', Option.some_bind, List.getElem?_map, hhue c hc,
      List.get_eq_getElem]

/-- C4 witness: four columns, base hue 0, no adjustable rows. -/
theorem c4_matrix_derivation_witness :
    (computeMatrix 4 0 []).length = 1 + ([] : List (Int × Int)).length
  ∧ (∀ row ∈ computeMatrix 4 0 [], row.length = (4 : Int).toNat)
  ∧ (∀ c : Nat, c < (4 : Int).toNat →
      ((computeMatrix 4 0 [])[0]?.bind fun r0 => r0[c]?) =
        some (hsv_to_hex (pyMod ((0 : Rat) + (c : Rat) * (360 / (4 : Rat))) 360) 100 100))
  ∧ (∀ r : Nat, ∀ hr : r < ([] : List (Int × Int)).length, ∀ c : Nat, c < (4 : Int).toNat →
      ((computeMatrix 4 0 [])[r + 1]?.bind fun rw => rw[c]?) =
        some (hsv_to_hex (pyMod ((0 : Rat) + (c : Rat) * (360 / (4 : Rat))) 360)
          ((([] : List (Int × Int)).get ⟨r, hr⟩).1 : Rat)
          ((([] : List (Int × Int)).get ⟨r, hr⟩).2 : Rat)))
  ∧ computeMatrix 4 0 [] = computeMatrix 4 0 [] :=
  c4_matrix_derivation 4 0 [] (by decide) (by decide)

/-!  C6: hex string parsing.  -/

/-- Is `c` a hexadecimal digit (as `int(-, 16)` accepts)? -/
def isHexDigitB (c : Char) : Bool := (hexDigitVal? c).isSome

/-- Exactly 6 hexadecimal digits. -/
def isHex6 (s : PyStr) : Bool := s.length = 6 && s.all isHexDigitB

/-- Exactly 6 hexadecimal digits after one optional leading `#`. -/
def isHex6After (s : PyStr) : Bool :=
  if pyStartsWith s '#' then isHex6 s.tail else isHex6 s

theorem hexDigitVal_big (c : Char) (d : Nat) (h : hexDigitVal? c = some d) :
    48 ≤ c.toNat ∧ d < 16 := by
  rw [hexDigitVal?] at h
  split at h
  · simp only [Option.some.injEq] at h
    exact ⟨by omega, by omega⟩
  · split at h
    · simp only [Option.some.injEq] at h
      exact ⟨by omega, by omega⟩
    · split at h
      · simp only [Option.some.injEq] at h
        exact ⟨by omega, by omega⟩
      · exact absurd h (by simp)

theorem hexDigit_char_facts (c : Char) (d : Nat) (h : hexDigitVal? c = some d) :
    c.isWhitespace = false ∧ c ≠ '-' ∧ c ≠ '+' ∧ c ≠ '#' := by
  obtain ⟨hbig, -⟩ := hexDigitVal_big c d h
  refine ⟨not_ws_of_big c (by omega), ?_, ?_, ?_⟩ <;>
    exact char_ne_of_toNat (by
      first
      | (have : ('-').toNat = 45 := by decide
         omega)
      | (have : ('+').toNat = 43 := by decide
         omega)
      | (have : ('#').toNat = 35 := by decide
         omega))

theorem pyIntHex_pair (a b : Char) (da db : Nat)
    (ha : hexDigitVal? a = some da) (hb : hexDigitVal? b = some db) :
    pyIntHex? [a, b] = some ((16 * da + db : Nat) : Int) := by
  obtain ⟨hwa, hma, hpa, -⟩ := hexDigit_char_facts a da ha
  obtain ⟨hwb, -, -, -⟩ := hexDigit_char_facts b db hb
  rw [pyIntHex?, pyIntBase?, pyStrip_eq_self _ (by
    intro c hc
    rcases List.mem_cons.mp hc with h | h
    · rw [h]; exact hwa
    · rw [List.mem_singleton.mp h]; exact hwb)]
  rw [pyIntSigned_no_sign _ _ _ _ hma hpa]
  simp only [parseDigitsAcc, ha, hb]
  norm_num [Nat.mul_comm]

theorem lstripHash_of_hexHead (s t : PyStr)
    (h : s = '#' :: t ∨ s = t)
    (hne : t ≠ []) (hh : isHexDigitB (t.headI) = true) :
    pyLstripHash s = t := by
  have hstop : t.dropWhile (fun c => c = '#') = t := by
    cases t with
    | nil => rfl
    | cons c rest =>
      rw [List.dropWhile_cons, if_neg ?_]
      obtain ⟨d, hd⟩ := Option.isSome_iff_exists.mp hh
      obtain ⟨-, -, -, hne4⟩ := hexDigit_char_facts c d (by simpa using hd)
      simpa using hne4
  rcases h with h | h
  · rw [h, pyLstripHash, List.dropWhile_cons, if_pos (by simp)]
    exact hstop
  · rw [h]
    exact hstop

/-- C6 (amended): `hex_to_rgb_tuple` strips all leading `#` characters and
parses the three 2-character slices at positions 0-1, 2-3, 4-5 of what is left,
ignoring anything beyond position 6.  On every string of exactly 6 hex digits
after one optional leading `#` it succeeds with all three channels in
`[0, 255]`; it fails whenever fewer than 5 characters remain after stripping.
(Contrary to the claim, it does NOT fail on every other string: extra
characters after position 6, extra leading `#`, or a parseable 5-character
remainder are accepted.) -/
theorem c6_hex_to_rgb_amended (s : PyStr) :
    (isHex6After s = true →
      ∃ r g b : Int, hex_to_rgb_tuple s = some (r, g, b)
        ∧ 0 ≤ r ∧ r ≤ 255 ∧ 0 ≤ g ∧ g ≤ 255 ∧ 0 ≤ b ∧ b ≤ 255)
  ∧ ((pyLstripHash s).length ≤ 4 → hex_to_rgb_tuple s = none) := by
  constructor
  · intro h6a
    have hcore : ∃ t, pyLstripHash s = t ∧ isHex6 t = true := by
      cases s with
      | nil => exact absurd h6a (by decide)
      | cons c0 rest =>
        by_cases hch : c0 = '#'
        · subst hch
          rw [isHex6After, if_pos (by rw [pyStartsWith]; simp)] at h6a
          have h6 : isHex6 rest = true := h6a
          have hne : rest ≠ [] := by
            intro he; rw [he] at h6; exact absurd h6 (by decide)
          refine ⟨rest, lstripHash_of_hexHead _ rest (Or.inl rfl) hne ?_, h6⟩
          rw [isHex6, Bool.and_eq_true] at h6
          cases rest with
          | nil => simp at hne
          | cons a q =>
            have := (List.all_eq_true.mp h6.2) a (List.mem_cons_self a q)
            simpa using this
        · rw [isHex6After, if_neg (by rw [pyStartsWith]; simp [hch])] at h6a
          refine ⟨c0 :: rest, ?_, h6a⟩
          rw [pyLstripHash, List.dropWhile_cons, if_neg (by simp [hch])]
    obtain ⟨t, hlt, h6⟩ := hcore
    have hl : t.length = 6 := by
      rw [isHex6, Bool.and_eq_true] at h6
      simpa using h6.1
    obtain ⟨a, b, c, d, e, f, ht⟩ : ∃ a b c d e f, t = [a, b, c, d, e, f] := by
      rcases t with _ | ⟨a, t⟩
      · simp at hl
      rcases t with _ | ⟨b, t⟩
      · simp at hl
      rcases t with _ | ⟨c, t⟩
      · simp at hl
      rcases t with _ | ⟨d, t⟩
      · simp at hl
      rcases t with _ | ⟨e, t⟩
      · simp at hl
      rcases t with _ | ⟨f, t⟩
      · simp at hl
      rcases t with _ | ⟨g, t⟩
      · exact ⟨a, b, c, d, e, f, rfl⟩
      · simp at hl
    subst ht
    rw [isHex6, Bool.and_eq_true] at h6
    have hall := List.all_eq_true.mp h6.2
    have hWith : ∀ x ∈ [a, b, c, d, e, f], ∃ dx, hexDigitVal? x = some dx ∧ dx < 16 := by
      intro x hx
      have := hall x hx
      rw [isHexDigitB] at this
      obtain ⟨dx, hdx⟩ := Option.isSome_iff_exists.mp this
      exact ⟨dx, hdx, (hexDigitVal_big x dx hdx).2⟩
    obtain ⟨da, hda, hda16⟩ := hWith a (by simp)
    obtain ⟨db, hdb, hdb16⟩ := hWith b (by simp)
    obtain ⟨dc, hdc, hdc16⟩ := hWith c (by simp)
    obtain ⟨dd, hdd, hdd16⟩ := hWith d (by simp)
    obtain ⟨de, hde, hde16⟩ := hWith e (by simp)
    obtain ⟨df, hdf, hdf16⟩ := hWith f (by simp)
    refine ⟨((16 * da + db : Nat) : Int), ((16 * dc + dd : Nat) : Int),
      ((16 * de + df : Nat) : Int), ?_, ?_, ?_, ?_, ?_, ?_, ?_⟩
    · rw [hex_to_rgb_tuple, hlt]
      have s02 : pySlice [a, b, c, d, e, f] 0 2 = [a, b] := rfl
      have s24 : pySlice [a, b, c, d, e, f] 2 4 = [c, d] := rfl
      have s46 : pySlice [a, b, c, d, e, f] 4 6 = [e, f] := rfl
      rw [s02, s24, s46, pyIntHex_pair a b da db hda hdb,
        pyIntHex_pair c d dc dd hdc hdd, pyIntHex_pair e f de df hde hdf]
    · positivity
    · exact_mod_cast by omega
    · positivity
    · exact_mod_cast by omega
    · positivity
    · exact_mod_cast by omega
  · intro hshort
    have h46 : pySlice (pyLstripHash s) 4 6 = [] := by
      rw [pySlice, List.drop_eq_nil_of_le (by omega), List.take_nil]
    have hnone : pyIntHex? (pySlice (pyLstripHash s) 4 6) = none := by
      rw [h46]; rfl
    rw [hex_to_rgb_tuple]
    cases h1 : pyIntHex? (pySlice (pyLstripHash s) 0 2) <;>
      cases h2 : pyIntHex? (pySlice (pyLstripHash s) 2 4) <;>
        simp only [hnone]

/-- C6 counterexample: `"AABBCCDD"` has 8 hex digits (so it does not consist of
exactly 6 hex digits after an optional leading `#`), yet `hex_to_rgb_tuple`
succeeds on it (reading only the first six), instead of failing as the claim
requires; likewise the 5-character `"ABCDE"` succeeds. -/
theorem c6_counterexample :
    isHex6After ("AABBCCDD".toList) = false
  ∧ hex_to_rgb_tuple ("AABBCCDD".toList) = some (170, 187, 204)
  ∧ isHex6After ("ABCDE".toList) = false
  ∧ hex_to_rgb_tuple ("ABCDE".toList) = some (171, 205, 14) := by decide

/-- C6 witness: the amended theorem at a canonical 6-digit string and at a
too-short string. -/
theorem c6_hex_to_rgb_amended_witness :
    (∃ r g b : Int, hex_to_rgb_tuple ("#AABBCC".toList) = some (r, g, b)
      ∧ 0 ≤ r ∧ r ≤ 255 ∧ 0 ≤ g ∧ g ≤ 255 ∧ 0 ≤ b ∧ b ≤ 255)
  ∧ hex_to_rgb_tuple ("AB".toList) = none :=
  ⟨(c6_hex_to_rgb_amended ("#AABBCC".toList)).1 (by decide),
    (c6_hex_to_rgb_amended ("AB".toList)).2 (by decide)⟩

/-!  C10: totality and well-formedness of `hsv_to_hex`.  -/

theorem pyMod_bounds (x m : Rat) (hm : 0 < m) : 0 ≤ pyMod x m ∧ pyMod x m < m := by
  have key : x - m * ⌊x / m⌋ = m * Int.fract (x / m) := by
    rw [Int.fract]
    field_simp
  rw [pyMod, key]
  constructor
  · exact mul_nonneg hm.le (Int.fract_nonneg _)
  · calc m * Int.fract (x / m) < m * 1 :=
        mul_lt_mul_of_pos_left (Int.fract_lt_one _) hm
      _ = m := mul_one m

theorem pyRound_bounds (q : Rat) (h0 : 0 ≤ q) (h255 : q ≤ 255) :
    0 ≤ pyRound q ∧ pyRound q ≤ 255 := by
  have hfl0 : (0 : Int) ≤ ⌊q⌋ := Int.floor_nonneg.mpr h0
  have hfl255 : ⌊q⌋ ≤ 255 := by
    have h := Int.floor_le_floor (α := Rat) h255
    norm_num at h
    exact h
  rw [pyRound]
  split
  · exact ⟨hfl0, hfl255⟩
  · rename_i hlt
    push_neg at hlt
    have hfr : Int.fract q = q - ⌊q⌋ := Int.self_sub_floor q ▸ rfl
    have hq : (⌊q⌋ : Rat) + 1 / 2 ≤ q := by
      rw [Int.fract] at hlt
      linarith
    have h254 : ⌊q⌋ ≤ 254 := by
      have h2 : ((2 * ⌊q⌋ : Int) : Rat) ≤ 509 := by push_cast; linarith
      have h3 : (2 * ⌊q⌋ : Int) ≤ 509 := by exact_mod_cast h2
      omega
    split
    · exact ⟨by omega, by omega⟩
    · split <;> exact ⟨by omega, by omega⟩

theorem colorsys_bounds (h s v : Rat) (hh0 : 0 ≤ h) (hh1 : h < 1)
    (hs0 : 0 ≤ s) (hs1 : s ≤ 1) (hv0 : 0 ≤ v) (hv1 : v ≤ 1)
    (r g b : Rat) (heq : colorsys_hsv_to_rgb h s v = (r, g, b)) :
    0 ≤ r ∧ r ≤ 1 ∧ 0 ≤ g ∧ g ≤ 1 ∧ 0 ≤ b ∧ b ≤ 1 := by
  rw [colorsys_hsv_to_rgb] at heq
  by_cases hs : s = 0
  · rw [if_pos hs] at heq
    simp only [Prod.mk.injEq] at heq
    obtain ⟨h1, h2, h3⟩ := heq
    subst h1; subst h2; subst h3
    exact ⟨hv0, hv1, hv0, hv1, hv0, hv1⟩
  · rw [if_neg hs] at heq
    simp only [] at heq
    have htr : pyTrunc (h * 6) = ⌊h * 6⌋ := by
      rw [pyTrunc, if_pos (by positivity)]
    set f := h * 6 - ((pyTrunc (h * 6) : Int) : Rat) with hfdef
    have hf0 : 0 ≤ f := by
      rw [hfdef, htr]
      have := Int.floor_le (h * 6)
      linarith
    have hf1 : f ≤ 1 := by
      rw [hfdef, htr]
      have := Int.lt_floor_add_one (h * 6)
      linarith
    have hsf : 0 ≤ s * f ∧ s * f ≤ 1 :=
      ⟨mul_nonneg hs0 hf0, by nlinarith⟩
    have hsf2 : 0 ≤ s * (1 - f) ∧ s * (1 - f) ≤ 1 :=
      ⟨mul_nonneg hs0 (by linarith), by nlinarith⟩
    have hp : 0 ≤ v * (1 - s) ∧ v * (1 - s) ≤ 1 :=
      ⟨mul_nonneg hv0 (by linarith), by nlinarith⟩
    have hq : 0 ≤ v * (1 - s * f) ∧ v * (1 - s * f) ≤ 1 :=
      ⟨mul_nonneg hv0 (by linarith [hsf.2]), by nlinarith [hsf.1]⟩
    have ht : 0 ≤ v * (1 - s * (1 - f)) ∧ v * (1 - s * (1 - f)) ≤ 1 :=
      ⟨mul_nonneg hv0 (by linarith [hsf2.2]), by nlinarith [hsf2.1]⟩
    split at heq
    · simp only [Prod.mk.injEq] at heq
      obtain ⟨rfl, rfl, rfl⟩ := heq
      exact ⟨hv0, hv1, ht.1, ht.2, hp.1, hp.2⟩
    · split at heq
      · simp only [Prod.mk.injEq] at heq
        obtain ⟨rfl, rfl, rfl⟩ := heq
        exact ⟨hq.1, hq.2, hv0, hv1, hp.1, hp.2⟩
      · split at heq
        · simp only [Prod.mk.injEq] at heq
          obtain ⟨rfl, rfl, rfl⟩ := heq
          exact ⟨hp.1, hp.2, hq.1, hq.2, ht.1, ht.2⟩
        · split at heq
          · simp only [Prod.mk.injEq] at heq
            obtain ⟨rfl, rfl, rfl⟩ := heq
            exact ⟨hp.1, hp.2, hv0, hv1, hq.1, hq.2⟩
          · split at heq
            · simp only [Prod.mk.injEq] at heq
              obtain ⟨rfl, rfl, rfl⟩ := heq
              exact ⟨ht.1, ht.2, hp.1, hp.2, hv0, hv1⟩
            · simp only [Prod.mk.injEq] at heq
              obtain ⟨rfl, rfl, rfl⟩ := heq
              exact ⟨hv0, hv1, hq.1, hq.2, ht.1, ht.2⟩

theorem natToHexDigitsAux_congr : ∀ (f1 f2 n : Nat), n < f1 → n < f2 →
    natToHexDigitsAux f1 n = natToHexDigitsAux f2 n := by
  intro f1
  induction f1 with
  | zero => omega
  | succ f ih =>
    intro f2 n h1 h2
    cases f2 with
    | zero => omega
    | succ g =>
      simp only [natToHexDigitsAux]
      by_cases h : n < 16
      · simp [h]
      · have hdiv : n / 16 < n := Nat.div_lt_self (by omega) (by omega)
        rw [if_neg h, if_neg h, ih g (n / 16) (by omega) (by omega)]

theorem natToHexDigits_eq (n : Nat) : natToHexDigits n =
    if n < 16 then [hexDigitChar n] else natToHexDigits (n / 16) ++ [hexDigitChar (n % 16)] := by
  rw [natToHexDigits, natToHexDigitsAux]
  by_cases h : n < 16
  · simp [h]
  · have hdiv : n / 16 < n := Nat.div_lt_self (by omega) (by omega)
    rw [if_neg h, if_neg h, natToHexDigits,
      natToHexDigitsAux_congr n (n / 16 + 1) (n / 16) (by omega) (by omega)]

theorem format02x_eq (r : Int) (h0 : 0 ≤ r) (h255 : r ≤ 255) :
    format02x r = [hexDigitChar (r.toNat / 16), hexDigitChar (r.toNat % 16)] := by
  rw [format02x, if_neg (by omega)]
  by_cases h16 : r.toNat < 16
  · rw [if_pos h16, natToHexDigits_eq, if_pos h16]
    have hd : r.toNat / 16 = 0 := by omega
    have hm : r.toNat % 16 = r.toNat := by omega
    rw [hd, hm]
    rfl
  · rw [if_neg h16, natToHexDigits_eq, if_neg h16, natToHexDigits_eq,
      if_pos (show r.toNat / 16 < 16 by omega)]
    rfl

theorem hex_to_rgb_of_shape (r g b : Int)
    (hr0 : 0 ≤ r) (hr255 : r ≤ 255) (hg0 : 0 ≤ g) (hg255 : g ≤ 255)
    (hb0 : 0 ≤ b) (hb255 : b ≤ 255) :
    hex_to_rgb_tuple ('#' :: (format02x r ++ format02x g ++ format02x b)) = some (r, g, b) := by
  rw [format02x_eq r hr0 hr255, format02x_eq g hg0 hg255, format02x_eq b hb0 hb255]
  have hhead : ∀ d : Nat, d < 16 → (hexDigitChar d = '#') = False := by
    intro d hd
    simp only [eq_iff_iff, iff_false]
    exact (hexDigitChar_spec d hd).2.2.2.2
  have hlst : pyLstripHash ('#' :: ([hexDigitChar (r.toNat / 16), hexDigitChar (r.toNat % 16)]
      ++ [hexDigitChar (g.toNat / 16), hexDigitChar (g.toNat % 16)]
      ++ [hexDigitChar (b.toNat / 16), hexDigitChar (b.toNat % 16)])) =
      [hexDigitChar (r.toNat / 16), hexDigitChar (r.toNat % 16),
        hexDigitChar (g.toNat / 16), hexDigitChar (g.toNat % 16),
        hexDigitChar (b.toNat / 16), hexDigitChar (b.toNat % 16)] := by
    rw [pyLstripHash]
    simp only [List.cons_append, List.nil_append, List.dropWhile_cons]
    rw [if_pos (by simp), if_neg (by simp [hhead _ (show r.toNat / 16 < 16 by omega)])]
  rw [hex_to_rgb_tuple, hlst]
  have s02 : pySlice [hexDigitChar (r.toNat / 16), hexDigitChar (r.toNat % 16),
      hexDigitChar (g.toNat / 16), hexDigitChar (g.toNat % 16),
      hexDigitChar (b.toNat / 16), hexDigitChar (b.toNat % 16)] 0 2
      = [hexDigitChar (r.toNat / 16), hexDigitChar (r.toNat % 16)] := rfl
  have s24 : pySlice [hexDigitChar (r.toNat / 16), hexDigitChar (r.toNat % 16),
      hexDigitChar (g.toNat / 16), hexDigitChar (g.toNat % 16),
      hexDigitChar (b.toNat / 16), hexDigitChar (b.toNat % 16)] 2 4
      = [hexDigitChar (g.toNat / 16), hexDigitChar (g.toNat % 16)] := rfl
  have s46 : pySlice [hexDigitChar (r.toNat / 16), hexDigitChar (r.toNat % 16),
      hexDigitChar (g.toNat / 16), hexDigitChar (g.toNat % 16),
      hexDigitChar (b.toNat / 16), hexDigitChar (b.toNat % 16)] 4 6
      = [hexDigitChar (b.toNat / 16), hexDigitChar (b.toNat % 16)] := rfl
  rw [s02, s24, s46]
  rw [pyIntHex_pair _ _ _ _ (hexDigitChar_spec (r.toNat / 16) (by omega)).1
      (hexDigitChar_spec (r.toNat % 16) (by omega)).1,
    pyIntHex_pair _ _ _ _ (hexDigitChar_spec (g.toNat / 16) (by omega)).1
      (hexDigitChar_spec (g.toNat % 16) (by omega)).1,
    pyIntHex_pair _ _ _ _ (hexDigitChar_spec (b.toNat / 16) (by omega)).1
      (hexDigitChar_spec (b.toNat % 16) (by omega)).1]
  have hr : ((16 * (r.toNat / 16) + r.toNat % 16 : Nat) : Int) = r := by omega
  have hg : ((16 * (g.toNat / 16) + g.toNat % 16 : Nat) : Int) = g := by omega
  have hb : ((16 * (b.toNat / 16) + b.toNat % 16 : Nat) : Int) = b := by omega
  rw [hr, hg, hb]

theorem hexDigitChar_display (d : Nat) (hd : d < 16) :
    ((hexDigitChar d).isDigit || (hexDigitChar d).isLower) = true := by
  interval_cases d <;> decide

/-- Shared shape lemma: `hsv_to_hex` always produces `#` followed by the
two-digit lowercase hex renderings of three channels in `[0, 255]`. -/
theorem hsv_to_hex_shape (h_deg s_pct v_pct : Rat) :
    ∃ r g b : Int, 0 ≤ r ∧ r ≤ 255 ∧ 0 ≤ g ∧ g ≤ 255 ∧ 0 ≤ b ∧ b ≤ 255
      ∧ hsv_to_hex h_deg s_pct v_pct = '#' :: (format02x r ++ format02x g ++ format02x b) := by
  have hm := pyMod_bounds h_deg 360 (by norm_num)
  have hh0 : 0 ≤ pyMod h_deg 360 / 360 := div_nonneg hm.1 (by norm_num)
  have hh1 : pyMod h_deg 360 / 360 < 1 := by
    rw [div_lt_one (by norm_num)]
    exact hm.2
  have hsc : ∀ x : Rat, 0 ≤ max 0 (min 1 x) ∧ max 0 (min 1 x) ≤ 1 := by
    intro x
    constructor
    · exact le_max_left 0 _
    · exact max_le (by norm_num) (min_le_left 1 x)
  have hcb := colorsys_bounds (pyMod h_deg 360 / 360)
    (max 0 (min 1 (s_pct / 100))) (max 0 (min 1 (v_pct / 100)))
    hh0 hh1 (hsc _).1 (hsc _).2 (hsc _).1 (hsc _).2
    (colorsys_hsv_to_rgb (pyMod h_deg 360 / 360) (max 0 (min 1 (s_pct / 100)))
      (max 0 (min 1 (v_pct / 100)))).1
    (colorsys_hsv_to_rgb (pyMod h_deg 360 / 360) (max 0 (min 1 (s_pct / 100)))
      (max 0 (min 1 (v_pct / 100)))).2.1
    (colorsys_hsv_to_rgb (pyMod h_deg 360 / 360) (max 0 (min 1 (s_pct / 100)))
      (max 0 (min 1 (v_pct / 100)))).2.2
    rfl
  obtain ⟨hr0, hr1, hg0, hg1, hb0, hb1⟩ := hcb
  refine ⟨_, _, _, (pyRound_bounds _ (by nlinarith) (by nlinarith)).1,
    (pyRound_bounds _ (by nlinarith) (by nlinarith)).2,
    (pyRound_bounds _ (by nlinarith) (by nlinarith)).1,
    (pyRound_bounds _ (by nlinarith) (by nlinarith)).2,
    (pyRound_bounds _ (by nlinarith) (by nlinarith)).1,
    (pyRound_bounds _ (by nlinarith) (by nlinarith)).2, rfl⟩

/-- C10: `hsv_to_hex` is total and well-formed on every rational hue,
saturation and value (hue is wrapped modulo 360, S and V clamped): the result
is a 7-character string starting `#` whose remaining six characters are
lowercase hex digits, and whose three parsed channels are integers in
`[0, 255]` (parsing back with `hex_to_rgb_tuple` recovers exactly those
channels). -/
theorem c10_hsv_to_hex_total (h_deg s_pct v_pct : Rat) :
    ∃ r g b : Int, 0 ≤ r ∧ r ≤ 255 ∧ 0 ≤ g ∧ g ≤ 255 ∧ 0 ≤ b ∧ b ≤ 255
      ∧ hsv_to_hex h_deg s_pct v_pct = '#' :: (format02x r ++ format02x g ++ format02x b)
      ∧ (hsv_to_hex h_deg s_pct v_pct).length = 7
      ∧ pyStartsWith (hsv_to_hex h_deg s_pct v_pct) '#' = true
      ∧ (∀ c ∈ (hsv_to_hex h_deg s_pct v_pct).tail, (c.isDigit || c.isLower) = true)
      ∧ hex_to_rgb_tuple (hsv_to_hex h_deg s_pct v_pct) = some (r, g, b) := by
  obtain ⟨r, g, b, hr0, hr1, hg0, hg1, hb0, hb1, heq⟩ := hsv_to_hex_shape h_deg s_pct v_pct
  refine ⟨r, g, b, hr0, hr1, hg0, hg1, hb0, hb1, heq, ?_, ?_, ?_, ?_⟩
  · rw [heq, format02x_eq r hr0 hr1, format02x_eq g hg0 hg1, format02x_eq b hb0 hb1]
    rfl
  · rw [heq]
    rfl
  · intro c hc
    rw [heq, format02x_eq r hr0 hr1, format02x_eq g hg0 hg1, format02x_eq b hb0 hb1] at hc
    simp only [List.cons_append, List.nil_append, List.tail_cons, List.mem_cons,
      List.mem_singleton, List.not_mem_nil, or_false] at hc
    rcases hc with h | h | h | h | h | h <;>
      rw [h] <;>
      exact hexDigitChar_display _ (by omega)
  · rw [heq]
    exact hex_to_rgb_of_shape r g b hr0 hr1 hg0 hg1 hb0 hb1

/-!  C2: round-trip support lemmas.  -/

theorem digitChar_ne_letters (d : Nat) (hd : d < 10) :
    digitChar d ≠ 's' ∧ digitChar d ≠ 'v' := by
  interval_cases d <;> exact ⟨by decide, by decide⟩

theorem lookupKey_append_right (pre rest : IniSec) (key : PyStr)
    (hpre : ∀ kv ∈ pre, kv.1 ≠ key) :
    lookupKey (pre ++ rest) key = lookupKey rest key := by
  induction pre with
  | nil => rfl
  | cons kv pre ih =>
    rw [List.cons_append, lookupKey, if_neg (hpre kv (List.mem_cons_self kv pre))]
    exact ih fun kv2 h2 => hpre kv2 (List.mem_cons_of_mem kv h2)

theorem rowKeyS_expand (i : Nat) : rowKeyS i = 'r' :: 'o' :: 'w' :: (pyStrNat i ++ kSufS) := by
  rw [rowKeyS, List.append_assoc]
  rfl

theorem rowKeyV_expand (i : Nat) : rowKeyV i = 'r' :: 'o' :: 'w' :: (pyStrNat i ++ kSufV) := by
  rw [rowKeyV, List.append_assoc]
  rfl

theorem rowKeyHex_expand (r : Nat) : rowKeyHex r = 'r' :: 'o' :: 'w' :: pyStrNat r := by
  rw [rowKeyHex]
  rfl

theorem rowKeyS_ne_fixed (i : Nat) :
    rowKeyS i ≠ kCols ∧ rowKeyS i ≠ kH ∧ rowKeyS i ≠ kRowsCount := by
  obtain ⟨d, t, hd, he⟩ := pyStrNat_head i
  refine ⟨?_, ?_, ?_⟩ <;> rw [rowKeyS_expand] <;> intro h
  · rw [show kCols = 'c' :: "ols".toList from rfl] at h
    injection h with h1 h2
    exact absurd h1 (by decide)
  · rw [show kH = 'h' :: [] from rfl] at h
    injection h with h1 h2
    exact absurd h1 (by decide)
  · rw [show kRowsCount = 'r' :: 'o' :: 'w' :: 's' :: "_count".toList from rfl] at h
    injection h with h1 h
    injection h with h1 h
    injection h with h1 h
    rw [he] at h
    injection h with h1 h
    exact (digitChar_ne_letters d hd).1 h1

theorem rowKeyV_ne_fixed (i : Nat) :
    rowKeyV i ≠ kCols ∧ rowKeyV i ≠ kH ∧ rowKeyV i ≠ kRowsCount := by
  obtain ⟨d, t, hd, he⟩ := pyStrNat_head i
  refine ⟨?_, ?_, ?_⟩ <;> rw [rowKeyV_expand] <;> intro h
  · rw [show kCols = 'c' :: "ols".toList from rfl] at h
    injection h with h1 h2
    exact absurd h1 (by decide)
  · rw [show kH = 'h' :: [] from rfl] at h
    injection h with h1 h2
    exact absurd h1 (by decide)
  · rw [show kRowsCount = 'r' :: 'o' :: 'w' :: 's' :: "_count".toList from rfl] at h
    injection h with h1 h
    injection h with h1 h
    injection h with h1 h
    rw [he] at h
    injection h with h1 h
    exact (digitChar_ne_letters d hd).1 h1

theorem rowKeyS_inj (i j : Nat) (h : rowKeyS i = rowKeyS j) : i = j := by
  rw [rowKeyS_expand, rowKeyS_expand] at h
  simp only [List.cons.injEq, true_and] at h
  exact pyStrNat_injective (List.append_cancel_right h)

theorem rowKeyV_inj (i j : Nat) (h : rowKeyV i = rowKeyV j) : i = j := by
  rw [rowKeyV_expand, rowKeyV_expand] at h
  simp only [List.cons.injEq, true_and] at h
  exact pyStrNat_injective (List.append_cancel_right h)

theorem rowKeyHex_inj (i j : Nat) (h : rowKeyHex i = rowKeyHex j) : i = j := by
  rw [rowKeyHex_expand, rowKeyHex_expand] at h
  simp only [List.cons.injEq, true_and] at h
  exact pyStrNat_injective h

theorem rowKeyS_ne_rowKeyV (i j : Nat) : rowKeyS i ≠ rowKeyV j := by
  intro h
  rw [rowKeyS_expand, rowKeyV_expand] at h
  simp only [List.cons.injEq, true_and] at h
  have hs : (pyStrNat i ++ kSufS).getLast? = some 's' := by
    rw [show kSufS = ['_'] ++ ['s'] from rfl, ← List.append_assoc]
    exact List.getLast?_concat _
  have hv : (pyStrNat j ++ kSufV).getLast? = some 'v' := by
    rw [show kSufV = ['_'] ++ ['v'] from rfl, ← List.append_assoc]
    exact List.getLast?_concat _
  rw [h, hv] at hs
  exact absurd hs (by decide)

theorem splitWsAux_token (t : PyStr) (hws : ∀ c ∈ t, c.isWhitespace = false) :
    ∀ (rest acc : PyStr), splitWsAux (t ++ rest) acc = splitWsAux rest (t.reverse ++ acc) := by
  induction t with
  | nil => intro rest acc; rfl
  | cons c t ih =>
    intro rest acc
    rw [List.cons_append, splitWsAux]
    rw [if_neg (by simp [hws c (List.mem_cons_self c t)])]
    rw [ih (fun x hx => hws x (List.mem_cons_of_mem c hx)) rest (c :: acc)]
    congr 1
    simp

theorem mem_of_head?_eq {α : Type} (l : List α) (c : α) (h : l.head? = some c) : c ∈ l := by
  cases l with
  | nil => simp at h
  | cons x xs =>
    simp only [List.head?_cons, Option.some.injEq] at h
    rw [← h]
    exact List.mem_cons_self x xs

theorem mem_of_getLast?_eq {α : Type} (l : List α) (c : α) (h : l.getLast? = some c) : c ∈ l := by
  rw [← List.head?_reverse] at h
  exact List.mem_reverse.mp (mem_of_head?_eq l.reverse c h)

theorem pySplitWs_joinSpace (toks : List PyStr)
    (hgood : ∀ t ∈ toks, t ≠ [] ∧ ∀ c ∈ t, c.isWhitespace = false) :
    pySplitWs (joinSpace toks) = toks := by
  induction toks with
  | nil => rfl
  | cons t rest ih =>
    obtain ⟨hne, hws⟩ := hgood t (List.mem_cons_self t rest)
    cases rest with
    | nil =>
      rw [joinSpace, if_pos rfl, List.append_nil, pySplitWs,
        show t = t ++ [] by simp, splitWsAux_token _ hws]
      rw [splitWsAux, if_neg (by simp [hne])]
      simp [hne]
    | cons t2 rest2 =>
      rw [joinSpace, if_neg (by simp), pySplitWs, splitWsAux_token _ hws]
      rw [splitWsAux, if_pos (by decide), if_neg (by simp [hne])]
      simp only [List.append_nil, List.reverse_reverse]
      congr 1
      exact ih fun x hx => hgood x (List.mem_cons_of_mem t hx)

theorem joinSpace_ne_nil (t : PyStr) (rest : List PyStr) (hne : t ≠ []) :
    joinSpace (t :: rest) ≠ [] := by
  rw [joinSpace]
  simp [hne]

theorem joinSpace_head_nws (t : PyStr) (rest : List PyStr)
    (hne : t ≠ []) (hws : ∀ c ∈ t, c.isWhitespace = false) :
    ∀ c, (joinSpace (t :: rest)).head? = some c → c.isWhitespace = false := by
  intro c hc
  cases t with
  | nil => exact absurd rfl hne
  | cons x xs =>
    rw [joinSpace, List.cons_append, List.head?_cons, Option.some.injEq] at hc
    rw [← hc]
    exact hws x (List.mem_cons_self x xs)

theorem joinSpace_getLast_nws (toks : List PyStr)
    (hgood : ∀ t ∈ toks, t ≠ [] ∧ ∀ c ∈ t, c.isWhitespace = false) :
    ∀ c, (joinSpace toks).getLast? = some c → c.isWhitespace = false := by
  induction toks with
  | nil =>
    intro c hc
    rw [joinSpace] at hc
    simp at hc
  | cons t rest ih =>
    intro c hc
    rw [joinSpace] at hc
    cases rest with
    | nil =>
      rw [if_pos rfl, List.append_nil] at hc
      exact (hgood t (List.mem_cons_self t [])).2 c (mem_of_getLast?_eq t c hc)
    | cons t2 rest2 =>
      rw [if_neg (by simp), List.getLast?_append] at hc
      have hjne : joinSpace (t2 :: rest2) ≠ [] :=
        joinSpace_ne_nil t2 rest2 (hgood t2 (by simp)).1
      cases hj : joinSpace (t2 :: rest2) with
      | nil => exact absurd hj hjne
      | cons d q =>
        rw [hj, List.getLast?_cons_cons] at hc
        cases hgl : (d :: q).getLast? with
        | none =>
          rw [List.getLast?_eq_none_iff] at hgl
          exact absurd hgl (by simp)
        | some e =>
          rw [hgl, Option.or_some] at hc
          injection hc with hec
          exact ih (fun x hx => hgood x (List.mem_cons_of_mem t hx)) c (by rw [hj, hgl, hec])

theorem pyStrip_eq_self_of_ends (l : PyStr)
    (hh : ∀ c, l.head? = some c → c.isWhitespace = false)
    (hl : ∀ c, l.getLast? = some c → c.isWhitespace = false) :
    pyStrip l = l := by
  cases l with
  | nil => rfl
  | cons c rest =>
    rw [pyStrip, List.dropWhile_cons, if_neg (by simp [hh c rfl])]
    have h2 : (c :: rest).reverse.dropWhile Char.isWhitespace = (c :: rest).reverse := by
      cases hrev : (c :: rest).reverse with
      | nil => rfl
      | cons d q =>
        rw [List.dropWhile_cons, if_neg ?_]
        have : (c :: rest).getLast? = some d := by
          rw [← List.head?_reverse, hrev]
          rfl
        simp [hl d this]
    rw [h2, List.reverse_reverse]

theorem dedupKeepFirst_of_nodup (l : List PyStr) (hl : l.Nodup) :
    ∀ seen, (∀ x ∈ l, x ∉ seen) → dedupKeepFirst l seen = l := by
  induction l with
  | nil => intro seen hseen; rfl
  | cons x rest ih =>
    intro seen hseen
    rw [dedupKeepFirst, if_neg (hseen x (List.mem_cons_self x rest))]
    congr 1
    refine ih (List.Nodup.of_cons hl) (x :: seen) ?_
    intro y hy
    simp only [List.mem_cons, not_or]
    exact ⟨fun he => (List.nodup_cons.mp hl).1 (he ▸ hy),
      fun hmem => hseen y (List.mem_cons_of_mem x hy) hmem⟩

theorem map_id_of_mem {α : Type} (f : α → α) (l : List α) (h : ∀ x ∈ l, f x = x) :
    l.map f = l := by
  induction l with
  | nil => rfl
  | cons x rest ih =>
    rw [List.map_cons, h x (List.mem_cons_self x rest),
      ih fun y hy => h y (List.mem_cons_of_mem x hy)]

/-- A cell as produced by `hsv_to_hex`: `#` plus three 2-digit hex channels. -/
def GoodCell (cell : PyStr) : Prop :=
  ∃ r g b : Int, 0 ≤ r ∧ r ≤ 255 ∧ 0 ≤ g ∧ g ≤ 255 ∧ 0 ≤ b ∧ b ≤ 255
    ∧ cell = '#' :: (format02x r ++ format02x g ++ format02x b)

theorem goodCell_chars (cell : PyStr) (hg : GoodCell cell) :
    ∀ c ∈ cell, c = '#' ∨ ∃ d, d < 16 ∧ c = hexDigitChar d := by
  obtain ⟨r, g, b, hr0, hr1, hg0, hg1, hb0, hb1, he⟩ := hg
  rw [he, format02x_eq r hr0 hr1, format02x_eq g hg0 hg1, format02x_eq b hb0 hb1]
  intro c hc
  simp only [List.cons_append, List.nil_append, List.mem_cons, List.not_mem_nil, or_false] at hc
  rcases hc with h | h | h | h | h | h | h
  · exact Or.inl h
  · exact Or.inr ⟨_, by omega, h⟩
  · exact Or.inr ⟨_, by omega, h⟩
  · exact Or.inr ⟨_, by omega, h⟩
  · exact Or.inr ⟨_, by omega, h⟩
  · exact Or.inr ⟨_, by omega, h⟩
  · exact Or.inr ⟨_, by omega, h⟩

theorem hexDigitChar_upper_facts (d : Nat) (hd : d < 16) :
    pyCharUpper (pyCharUpper (hexDigitChar d)) = pyCharUpper (hexDigitChar d)
    ∧ (pyCharUpper (hexDigitChar d)).isWhitespace = false := by
  interval_cases d <;> exact ⟨by decide, by decide⟩

theorem goodCell_head (cell : PyStr) (hg : GoodCell cell) :
    ∃ rest, cell = '#' :: rest := by
  obtain ⟨r, g, b, _, _, _, _, _, _, he⟩ := hg
  exact ⟨_, he⟩

theorem goodCell_length (cell : PyStr) (hg : GoodCell cell) : cell.length = 7 := by
  obtain ⟨r, g, b, hr0, hr1, hg0, hg1, hb0, hb1, he⟩ := hg
  rw [he, format02x_eq r hr0 hr1, format02x_eq g hg0 hg1, format02x_eq b hb0 hb1]
  rfl

theorem goodCell_token_facts (cell : PyStr) (hg : GoodCell cell) :
    (pyUpper cell).length = 7
    ∧ pyStartsWith (pyUpper cell) '#' = true
    ∧ pyUpper cell ≠ []
    ∧ (∀ c ∈ pyUpper cell, c.isWhitespace = false)
    ∧ pyUpper (pyUpper cell) = pyUpper cell
    ∧ pyStrip (pyUpper cell) = pyUpper cell := by
  have hchars := goodCell_chars cell hg
  have hup : ∀ c ∈ pyUpper cell, c.isWhitespace = false := by
    intro c hc
    obtain ⟨c0, hc0, hcc⟩ := List.mem_map.mp hc
    rcases hchars c0 hc0 with h | ⟨d, hd, h⟩
    · rw [← hcc, h]; decide
    · rw [← hcc, h]
      exact (hexDigitChar_upper_facts d hd).2
  have hidem : pyUpper (pyUpper cell) = pyUpper cell := by
    rw [pyUpper, pyUpper, List.map_map]
    apply List.map_congr_left
    intro c0 hc0
    rcases hchars c0 hc0 with h | ⟨d, hd, h⟩
    · rw [h]; rfl
    · rw [h]
      exact (hexDigitChar_upper_facts d hd).1
  obtain ⟨rest, hhead⟩ := goodCell_head cell hg
  have hlen : (pyUpper cell).length = 7 := by
    rw [pyUpper, List.length_map]
    exact goodCell_length cell hg
  refine ⟨hlen, ?_, ?_, hup, hidem, pyStrip_eq_self _ hup⟩
  · rw [hhead, pyUpper, List.map_cons]
    rfl
  · intro hnil
    rw [hnil] at hlen
    simp at hlen

theorem computeMatrix_rows_good (cols base_h : Int) (rows : List (Int × Int)) :
    ∀ row ∈ computeMatrix cols base_h rows,
      row.length = cols.toNat ∧ ∀ cell ∈ row, GoodCell cell := by
  intro row hrow
  rw [computeMatrix] at hrow
  have hhlen : (hueSteps cols base_h).length = cols.toNat := by
    rw [hueSteps, List.length_map, List.length_range]
  rcases List.mem_cons.mp hrow with hrow | hrow
  · subst hrow
    refine ⟨by rw [List.length_map, hhlen], ?_⟩
    intro cell hcell
    obtain ⟨hq, -, hcc⟩ := List.mem_map.mp hcell
    obtain ⟨r, g, b, h⟩ := hsv_to_hex_shape hq 100 100
    exact ⟨r, g, b, h.1, h.2.1, h.2.2.1, h.2.2.2.1, h.2.2.2.2.1, h.2.2.2.2.2.1,
      by rw [← hcc]; exact h.2.2.2.2.2.2⟩
  · obtain ⟨sv, -, hsv⟩ := List.mem_map.mp hrow
    subst hsv
    refine ⟨by rw [List.length_map, hhlen], ?_⟩
    intro cell hcell
    obtain ⟨hq, -, hcc⟩ := List.mem_map.mp hcell
    obtain ⟨r, g, b, h⟩ := hsv_to_hex_shape hq (sv.1 : Rat) (sv.2 : Rat)
    exact ⟨r, g, b, h.1, h.2.1, h.2.2.1, h.2.2.2.1, h.2.2.2.2.1, h.2.2.2.2.2.1,
      by rw [← hcc]; exact h.2.2.2.2.2.2⟩

theorem readSVs_exportRowKeys (rows : List (Int × Int)) :
    ∀ (i : Nat) (pre : IniSec),
    (∀ kv ∈ pre, ∀ j, i ≤ j → kv.1 ≠ rowKeyS j ∧ kv.1 ≠ rowKeyV j) →
    (∀ sv ∈ rows, 0 ≤ sv.1 ∧ sv.1 ≤ 100 ∧ 0 ≤ sv.2 ∧ sv.2 ≤ 100) →
    readSVs (pre ++ exportRowKeys i rows) i rows.length = .ok rows := by
  induction rows with
  | nil => intro i pre hpre hsv; rfl
  | cons sv rest ih =>
    intro i pre hpre hsv
    obtain ⟨hs0, hs1, hv0, hv1⟩ := hsv sv (List.mem_cons_self sv rest)
    have hkS : lookupKey (pre ++ exportRowKeys i (sv :: rest)) (rowKeyS i)
        = some (pyStrInt sv.1) := by
      rw [lookupKey_append_right _ _ _ (fun kv hkv => (hpre kv hkv i le_rfl).1),
        exportRowKeys, lookupKey, if_pos rfl]
    have hkV : lookupKey (pre ++ exportRowKeys i (sv :: rest)) (rowKeyV i)
        = some (pyStrInt sv.2) := by
      rw [lookupKey_append_right _ _ _ (fun kv hkv => (hpre kv hkv i le_rfl).2),
        exportRowKeys, lookupKey, if_neg (rowKeyS_ne_rowKeyV i i), lookupKey, if_pos rfl]
    rw [List.length_cons, readSVs, hkS, hkV]
    simp only [Option.some_bind, pyIntDec_pyStrInt sv.1 hs0, pyIntDec_pyStrInt sv.2 hv0]
    rw [if_pos ⟨hs0, hs1, hv0, hv1⟩]
    have hsec : pre ++ exportRowKeys i (sv :: rest)
        = (pre ++ [(rowKeyS i, pyStrInt sv.1), (rowKeyV i, pyStrInt sv.2)])
            ++ exportRowKeys (i + 1) rest := by
      rw [exportRowKeys]
      simp
    have hpre2 : ∀ kv ∈ pre ++ [(rowKeyS i, pyStrInt sv.1), (rowKeyV i, pyStrInt sv.2)],
        ∀ j, i + 1 ≤ j → kv.1 ≠ rowKeyS j ∧ kv.1 ≠ rowKeyV j := by
      intro kv hkv j hj
      rcases List.mem_append.mp hkv with h | h
      · exact hpre kv h j (by omega)
      · rcases List.mem_cons.mp h with h | h
        · subst h
          exact ⟨fun he => absurd (rowKeyS_inj i j he) (by omega),
            rowKeyS_ne_rowKeyV i j⟩
        · rcases List.mem_cons.mp h with h | h
          · subst h
            exact ⟨fun he => rowKeyS_ne_rowKeyV j i he.symm,
              fun he => absurd (rowKeyV_inj i j he) (by omega)⟩
          · simp at h
    rw [hsec, ih (i + 1) _ hpre2 (fun x hx => hsv x (List.mem_cons_of_mem sv hx))]

theorem checkHexRows_export (cols : Int) (hc0 : 0 < cols) (mat : List (List PyStr))
    (hgood : ∀ row ∈ mat, row.length = cols.toNat ∧ ∀ cell ∈ row, GoodCell cell) :
    ∀ (r : Nat) (pre : IniSec),
    (∀ kv ∈ pre, ∀ j, r ≤ j → kv.1 ≠ rowKeyHex j) →
    checkHexRows (pre ++ exportHexRows r mat) cols r mat.length = .ok () := by
  induction mat with
  | nil => intro r pre hpre; rfl
  | cons row mrest ih =>
    intro r pre hpre
    obtain ⟨hrl, hcells⟩ := hgood row (List.mem_cons_self row mrest)
    have htoks : ∀ t ∈ row.map pyUpper, t ≠ [] ∧ ∀ c ∈ t, c.isWhitespace = false := by
      intro t ht
      obtain ⟨cell, hcell, hct⟩ := List.mem_map.mp ht
      subst hct
      have hf := goodCell_token_facts cell (hcells cell hcell)
      exact ⟨hf.2.2.1, hf.2.2.2.1⟩
    have hkey : lookupKey (pre ++ exportHexRows r (row :: mrest)) (rowKeyHex r)
        = some (joinSpace (row.map pyUpper)) := by
      rw [lookupKey_append_right _ _ _ (fun kv hkv => hpre kv hkv r le_rfl),
        exportHexRows, lookupKey, if_pos rfl]
    rw [List.length_cons, checkHexRows, hkey]
    dsimp only []
    have hsplit : pySplitWs (joinSpace (row.map pyUpper)) = row.map pyUpper :=
      pySplitWs_joinSpace _ htoks
    have harr : (row.map pyUpper).map (fun x => pyUpper (pyStrip x)) = row.map pyUpper := by
      apply map_id_of_mem
      intro t ht
      obtain ⟨cell, hcell, hct⟩ := List.mem_map.mp ht
      subst hct
      have hf := goodCell_token_facts cell (hcells cell hcell)
      rw [hf.2.2.2.2.2, hf.2.2.2.2.1]
    have hlenc : (((row.map pyUpper).length : Nat) : Int) = cols := by
      rw [List.length_map, hrl]
      omega
    have hallc : (row.map pyUpper).all (fun x => x.length = 7 && pyStartsWith x '#') = true := by
      rw [List.all_eq_true]
      intro t ht
      obtain ⟨cell, hcell, hct⟩ := List.mem_map.mp ht
      subst hct
      have hf := goodCell_token_facts cell (hcells cell hcell)
      rw [Bool.and_eq_true]
      exact ⟨by simp [hf.1], hf.2.1⟩
    rw [hsplit, harr, if_pos ⟨hlenc, hallc⟩]
    have hsec : pre ++ exportHexRows r (row :: mrest)
        = (pre ++ [(rowKeyHex r, joinSpace (row.map pyUpper))])
            ++ exportHexRows (r + 1) mrest := by
      rw [exportHexRows]
      simp
    have hpre2 : ∀ kv ∈ pre ++ [(rowKeyHex r, joinSpace (row.map pyUpper))],
        ∀ j, r + 1 ≤ j → kv.1 ≠ rowKeyHex j := by
      intro kv hkv j hj
      rcases List.mem_append.mp hkv with h | h
      · exact hpre kv h j (by omega)
      · rcases List.mem_cons.mp h with h | h
        · subst h
          exact fun he => absurd (rowKeyHex_inj r j he) (by omega)
        · simp at h
    rw [hsec, ih (fun rw2 hrw2 => hgood rw2 (List.mem_cons_of_mem row hrw2)) (r + 1) _ hpre2]

/-- A character legal in an uppercase `#RRGGBB` token: `#`, a decimal digit,
or an uppercase hex letter. -/
def upperHexTokenChar (c : Char) : Bool :=
  c == '#' || (48 ≤ c.toNat && c.toNat ≤ 57) || (65 ≤ c.toNat && c.toNat ≤ 70)

/-- An uppercase `#RRGGBB` token: 7 characters, `#` first, all characters legal. -/
def IsUpperHex7 (x : PyStr) : Bool :=
  (x.length == 7) && pyStartsWith x '#' && x.all upperHexTokenChar

theorem upperHexTokenChar_facts (c : Char) (h : upperHexTokenChar c = true) :
    pyCharUpper c = c ∧ c.isWhitespace = false := by
  rw [upperHexTokenChar, Bool.or_eq_true, Bool.or_eq_true] at h
  rcases h with (h | h) | h
  · rw [beq_iff_eq] at h
    subst h
    exact ⟨by decide, by decide⟩
  · rw [Bool.and_eq_true, decide_eq_true_eq, decide_eq_true_eq] at h
    exact ⟨by rw [pyCharUpper, if_neg (by omega)], not_ws_of_big c (by omega)⟩
  · rw [Bool.and_eq_true, decide_eq_true_eq, decide_eq_true_eq] at h
    exact ⟨by rw [pyCharUpper, if_neg (by omega)], not_ws_of_big c (by omega)⟩

theorem isUpperHex7_facts (x : PyStr) (h : IsUpperHex7 x = true) :
    x.length = 7 ∧ pyStartsWith x '#' = true ∧ x ≠ []
    ∧ (∀ c ∈ x, c.isWhitespace = false) ∧ pyUpper x = x ∧ pyStrip x = x := by
  rw [IsUpperHex7, Bool.and_eq_true, Bool.and_eq_true] at h
  obtain ⟨⟨hlen, hstart⟩, hall⟩ := h
  rw [beq_iff_eq] at hlen
  have hws : ∀ c ∈ x, c.isWhitespace = false := fun c hc =>
    (upperHexTokenChar_facts c (List.all_eq_true.mp hall c hc)).2
  have hup : pyUpper x = x := map_id_of_mem _ _ fun c hc =>
    (upperHexTokenChar_facts c (List.all_eq_true.mp hall c hc)).1
  refine ⟨hlen, hstart, ?_, hws, hup, pyStrip_eq_self x hws⟩
  intro hnil
  rw [hnil] at hlen
  simp at hlen

/-- A valid in-memory state as the round-trip law requires: columns in
`[2, 360]`, hue in `[0, 359]`, at most 50 rows with S/V in `[0, 100]`, and
favorites a duplicate-free list of uppercase `#RRGGBB` strings. -/
def ValidState (st : AppState) : Prop :=
  2 ≤ st.cols ∧ st.cols ≤ 360 ∧ 0 ≤ st.h ∧ st.h ≤ 359
  ∧ st.rows.length ≤ 50
  ∧ (∀ sv ∈ st.rows, 0 ≤ sv.1 ∧ sv.1 ≤ 100 ∧ 0 ≤ sv.2 ∧ sv.2 ≤ 100)
  ∧ (∀ x ∈ st.palette_hexes, IsUpperHex7 x = true)
  ∧ st.palette_hexes.Nodup

instance (st : AppState) : Decidable (ValidState st) := by
  unfold ValidState
  infer_instance

theorem validate14_export (S : AppState)
    (hc2 : 2 ≤ S.cols) (hc360 : S.cols ≤ 360) (hh0 : 0 ≤ S.h) (hh359 : S.h ≤ 359)
    (hrlen : S.rows.length ≤ 50)
    (hrsv : ∀ sv ∈ S.rows, 0 ≤ sv.1 ∧ sv.1 ≤ 100 ∧ 0 ≤ sv.2 ∧ sv.2 ≤ 100) :
    validate14 (exportIni S) = .ok (S.cols, S.h, S.rows) := by
  have hIn : lookupSec (exportIni S) kInputs
      = some ((kCols, pyStrInt S.cols) :: (kH, pyStrInt S.h)
          :: (kRowsCount, pyStrInt (S.rows.length : Int)) :: exportRowKeys 2 S.rows) := by
    rw [exportIni, lookupSec, if_neg (by decide), lookupSec, if_pos rfl]
  have hHx : lookupSec (exportIni S) kHex
      = some (exportHexRows 1 (computeMatrix S.cols S.h S.rows)) := by
    rw [exportIni, lookupSec, if_neg (by decide), lookupSec, if_neg (by decide),
      lookupSec, if_pos rfl]
  have hkc : (lookupKey ((kCols, pyStrInt S.cols) :: (kH, pyStrInt S.h)
        :: (kRowsCount, pyStrInt (S.rows.length : Int)) :: exportRowKeys 2 S.rows)
        kCols).bind pyIntDec? = some S.cols := by
    rw [lookupKey, if_pos rfl, Option.some_bind, pyIntDec_pyStrInt _ (by omega)]
  have hkh : (lookupKey ((kCols, pyStrInt S.cols) :: (kH, pyStrInt S.h)
        :: (kRowsCount, pyStrInt (S.rows.length : Int)) :: exportRowKeys 2 S.rows)
        kH).bind pyIntDec? = some S.h := by
    rw [lookupKey, if_neg (by decide), lookupKey, if_pos rfl, Option.some_bind,
      pyIntDec_pyStrInt _ hh0]
  have hkr : (lookupKey ((kCols, pyStrInt S.cols) :: (kH, pyStrInt S.h)
        :: (kRowsCount, pyStrInt (S.rows.length : Int)) :: exportRowKeys 2 S.rows)
        kRowsCount).bind pyIntDec? = some (S.rows.length : Int) := by
    rw [lookupKey, if_neg (by decide), lookupKey, if_neg (by decide),
      lookupKey, if_pos rfl, Option.some_bind, pyIntDec_pyStrInt _ (Int.natCast_nonneg _)]
  rw [validate14, hIn, hHx]
  dsimp only []
  rw [hkc, hkh, hkr]
  dsimp only []
  rw [if_pos ⟨⟨hc2, hc360⟩, ⟨hh0, hh359⟩, Int.natCast_nonneg _, by exact_mod_cast hrlen⟩]
  have hpre3 : ∀ kv ∈ ([(kCols, pyStrInt S.cols), (kH, pyStrInt S.h),
      (kRowsCount, pyStrInt (S.rows.length : Int))] : IniSec),
      ∀ j : Nat, 2 ≤ j → kv.1 ≠ rowKeyS j ∧ kv.1 ≠ rowKeyV j := by
    intro kv hkv j hj
    rcases List.mem_cons.mp hkv with h | h
    · subst h
      exact ⟨fun he => (rowKeyS_ne_fixed j).1 he.symm, fun he => (rowKeyV_ne_fixed j).1 he.symm⟩
    rcases List.mem_cons.mp h with h | h
    · subst h
      exact ⟨fun he => (rowKeyS_ne_fixed j).2.1 he.symm,
        fun he => (rowKeyV_ne_fixed j).2.1 he.symm⟩
    rcases List.mem_cons.mp h with h | h
    · subst h
      exact ⟨fun he => (rowKeyS_ne_fixed j).2.2 he.symm,
        fun he => (rowKeyV_ne_fixed j).2.2 he.symm⟩
    · simp at h
  have hread : readSVs ((kCols, pyStrInt S.cols) :: (kH, pyStrInt S.h)
      :: (kRowsCount, pyStrInt (S.rows.length : Int)) :: exportRowKeys 2 S.rows) 2
      ((S.rows.length : Int)).toNat = .ok S.rows := by
    rw [Int.toNat_ofNat]
    exact readSVs_exportRowKeys S.rows 2
      [(kCols, pyStrInt S.cols), (kH, pyStrInt S.h),
        (kRowsCount, pyStrInt (S.rows.length : Int))] hpre3 hrsv
  rw [hread]
  have hml : (computeMatrix S.cols S.h S.rows).length = S.rows.length + 1 := by
    rw [computeMatrix, List.length_cons, List.length_map]
  have hchk2 : checkHexRows (exportHexRows 1 (computeMatrix S.cols S.h S.rows)) S.cols 1
      ((S.rows.length : Int).toNat + 1) = .ok () := by
    rw [Int.toNat_ofNat, ← hml]
    exact checkHexRows_export S.cols (by omega) (computeMatrix S.cols S.h S.rows)
      (computeMatrix_rows_good S.cols S.h S.rows) 1 [] (by intro kv hkv; simp at hkv)
  rw [hchk2]

/-- C2: round-trip law.  For every valid in-memory state `S` (columns in
`[2, 360]`, hue in `[0, 359]`, at most 50 rows with S/V in `[0, 100]`,
favorites a duplicate-free list of uppercase `#RRGGBB` strings), importing the
document produced by exporting `S` succeeds from any prior state `T` and
reproduces exactly the grid configuration, the ordered row S/V sequence, and
the ordered favorites collection of `S`. -/
theorem c2_round_trip (S T : AppState) (hv : ValidState S) :
    importIni (exportIni S) T
      = (none, { T with cols := S.cols, h := S.h, rows := S.rows,
                        palette_hexes := S.palette_hexes }) := by
  obtain ⟨hc2, hc360, hh0, hh359, hrlen, hrsv, hpal, hnodup⟩ := hv
  have hval := validate14_export S hc2 hc360 hh0 hh359 hrlen hrsv
  have hPl : lookupSec (exportIni S) kPalette
      = some [(kColors, joinSpace (S.palette_hexes.map pyUpper))] := by
    rw [exportIni, lookupSec, if_neg (by decide), lookupSec, if_neg (by decide),
      lookupSec, if_neg (by decide), lookupSec, if_pos rfl]
  have hmapid : S.palette_hexes.map pyUpper = S.palette_hexes :=
    map_id_of_mem _ _ fun x hx => (isUpperHex7_facts x (hpal x hx)).2.2.2.2.1
  have hdedup : dedupKeepFirst (S.palette_hexes.map pyUpper) [] = S.palette_hexes := by
    rw [hmapid]
    exact dedupKeepFirst_of_nodup _ hnodup [] (by intro x hx; simp)
  rw [importIni, hval]
  dsimp only []
  rw [hPl]
  dsimp only [lookupKey]
  rw [if_pos rfl, Option.getD_some, hmapid]
  cases hpe : S.palette_hexes with
  | nil =>
    rw [show joinSpace ([] : List PyStr) = ([] : PyStr) from rfl,
      if_pos (show pyStrip [] = ([] : PyStr) from rfl)]
    rfl
  | cons p0 prest =>
    have htg : ∀ t ∈ p0 :: prest, t ≠ [] ∧ ∀ c ∈ t, c.isWhitespace = false := by
      intro t ht
      have hf := isUpperHex7_facts t (hpal t (hpe ▸ ht))
      exact ⟨hf.2.2.1, hf.2.2.2.1⟩
    have hp0 := htg p0 (List.mem_cons_self p0 prest)
    have hstrip : pyStrip (joinSpace (p0 :: prest)) = joinSpace (p0 :: prest) := by
      apply pyStrip_eq_self_of_ends
      · exact joinSpace_head_nws p0 prest hp0.1 hp0.2
      · exact joinSpace_getLast_nws (p0 :: prest) htg
    have hjne : joinSpace (p0 :: prest) ≠ [] := joinSpace_ne_nil p0 prest hp0.1
    rw [hstrip, if_neg hjne]
    have hsplit : pySplitWs (joinSpace (p0 :: prest)) = p0 :: prest :=
      pySplitWs_joinSpace _ htg
    have hitems : (pySplitWs (joinSpace (p0 :: prest))).map (fun x => pyUpper (pyStrip x))
        = p0 :: prest := by
      rw [hsplit]
      apply map_id_of_mem
      intro t ht
      have hf := isUpperHex7_facts t (hpal t (hpe ▸ ht))
      rw [hf.2.2.2.2.2, hf.2.2.2.2.1]
    rw [hitems]
    have hany : ((p0 :: prest).any fun x => x.length ≠ 7 || !pyStartsWith x '#') = false := by
      rw [List.any_eq_false]
      intro x hx
      have hf := isUpperHex7_facts x (hpal x (hpe ▸ hx))
      simp [hf.1, hf.2.1]
    rw [if_neg (by rw [hany]; simp)]
    rw [hpe] at hdedup
    rw [apply_imported_palette, hdedup]

/-- Concrete states for the round-trip witness. -/
def c2S : AppState := ⟨2, 25, [(85, 85), (50, 60)], ["#ABCDEF".toList, "#00FF00".toList], []⟩

def c2T : AppState := ⟨9, 99, [(1, 2)], ["#111111".toList], ["#222222".toList]⟩

/-- C2 witness: a concrete valid state with two rows and two favorites
round-trips into a fresh state. -/
theorem c2_round_trip_witness :
    ValidState c2S
  ∧ importIni (exportIni c2S) c2T
      = (none, (⟨2, 25, [(85, 85), (50, 60)], ["#ABCDEF".toList, "#00FF00".toList],
          ["#222222".toList]⟩ : AppState)) :=
  ⟨by decide, by exact c2_round_trip c2S c2T (by decide)⟩

end LswPalette
